import Mathlib

/-!
Verification of the mpraski/api-gateway request-dispatch engine.

The Go sources are shallowly embedded: pure Go functions become Lean
functions over `List Char` / `String`, the HTTP header map becomes an
association list with canonical-key operations, and the sliding-window
rate limiter becomes a step function on the multiset of member scores.
All definitions are executable; machine integers are modelled by `Nat`
and `Int` (no overflow is reachable in the modelled code paths).
-/

namespace Gateway

/-! ## ASCII string utilities (strings, strings.ToUpper, path, textproto) -/

/-- ASCII upper-casing of a character, as Go does for the ASCII range. -/
def upChar (c : Char) : Char :=
  if 'a' ≤ c ∧ c ≤ 'z' then Char.ofNat (c.toNat - 32) else c

/-- ASCII lower-casing of a character. -/
def downChar (c : Char) : Char :=
  if 'A' ≤ c ∧ c ≤ 'Z' then Char.ofNat (c.toNat + 32) else c

/-- Go strings.ToUpper restricted to ASCII (all inputs in this code are ASCII). -/
def strToUpper (s : String) : String := String.mk (s.data.map upChar)

/-- Go strings.ToLower restricted to ASCII. -/
def strToLower (s : String) : String := String.mk (s.data.map downChar)

/-- Split a character list at every occurrence of separator `c`,
    mirroring Go strings.Split with a one-character separator
    (the empty input yields one empty field). -/
def splitCh (c : Char) : List Char → List (List Char)
  | [] => [[]]
  | a :: rest =>
    match splitCh c rest with
    | [] => [[]]
    | g :: gs => if a = c then [] :: g :: gs else (a :: g) :: gs

/-- Whitespace characters trimmed by Go strings.TrimSpace (ASCII part). -/
def isGoSpace (c : Char) : Bool :=
  c = ' ' ∨ c = '\t' ∨ c = '\n' ∨ c = '\x0b' ∨ c = '\x0c' ∨ c = '\r'

/-- Go strings.TrimSpace on a character list. -/
def trimSpaceL (cs : List Char) : List Char :=
  ((cs.dropWhile isGoSpace).reverse.dropWhile isGoSpace).reverse

/-- Go strings.TrimSpace. -/
def trimSpace (s : String) : String := String.mk (trimSpaceL s.data)

/-- Go textproto.TrimString trims only space and horizontal tab. -/
def isOWS (c : Char) : Bool := c = ' ' ∨ c = '\t'

/-- Go textproto.TrimString on a character list. -/
def trimOWSL (cs : List Char) : List Char :=
  ((cs.dropWhile isOWS).reverse.dropWhile isOWS).reverse

/-- Go strings.TrimPrefix: removes one leading occurrence of `pre`, if present. -/
def trimPfx (s pre : String) : String :=
  if pre.data.isPrefixOf s.data then String.mk (s.data.drop pre.data.length) else s

/-- Go strings.HasSuffix. -/
def hasSfx (s suf : String) : Bool := suf.data.reverse.isPrefixOf s.data.reverse

/-- Go strings.HasPrefix. -/
def hasPfx (s pre : String) : Bool := pre.data.isPrefixOf s.data

/-! ## net/http header-key canonicalization and the proxy's header-list parser -/

/-- Valid header field byte per net/http (token characters of RFC 7230). -/
def isTokenChar (c : Char) : Bool :=
  ('0' ≤ c ∧ c ≤ '9') ∨ ('a' ≤ c ∧ c ≤ 'z') ∨ ('A' ≤ c ∧ c ≤ 'Z') ∨
    [33, 35, 36, 37, 38, 39, 42, 43, 45, 46, 94, 95, 96, 124, 126].contains c.toNat

/-- The case-folding loop of net/textproto canonicalMIMEHeaderKey:
    upper-case a letter at the start and after each hyphen, lower-case
    every other letter. -/
def canonAux : List Char → Bool → List Char
  | [], _ => []
  | c :: rest, upper =>
    let c' := if upper then upChar c else downChar c
    c' :: canonAux rest (c' = '-')

/-- Go http.CanonicalHeaderKey: canonical form if every byte is a valid
    header-field byte, the input unchanged otherwise. -/
def canonicalHeaderKey (s : String) : String :=
  if s.data.all isTokenChar then String.mk (canonAux s.data true) else s

/-- One character of the proxy's parseHeaderList loop: how the current
    header-name accumulator grows on byte `b` (case-folded letters,
    hyphens, underscores, dots and digits are kept, all else dropped). -/
def phlChar (b : Char) (h : List Char) (upper : Bool) : List Char :=
  if 'a' ≤ b ∧ b ≤ 'z' then h ++ [if upper then upChar b else b]
  else if 'A' ≤ b ∧ b ≤ 'Z' then h ++ [if ¬upper then downChar b else b]
  else if b = '-' ∨ b = '_' ∨ b = '.' ∨ ('0' ≤ b ∧ b ≤ '9') then h ++ [b]
  else h

/-- The proxy's parseHeaderList loop body over the remaining input;
    `h` is the pending header-name accumulator and `upper` the
    capitalize-next-letter flag. A name is emitted at a space, a comma,
    or the end of the input. -/
def phlAux : List Char → List Char → Bool → List String
  | [], _, _ => []
  | b :: rest, h, upper =>
    let h' := phlChar b h upper
    if rest.isEmpty then
      if h'.length > 0 then [String.mk h'] else []
    else if b = ' ' ∨ b = ',' then
      if h'.length > 0 then String.mk h' :: phlAux rest [] true
      else phlAux rest h' upper
    else
      phlAux rest h' (b = '-' ∨ b = '_')

/-- The proxy's parseHeaderList: parse a comma list of header names into
    canonical-cased names. -/
def parseHeaderList (headerList : String) : List String :=
  phlAux headerList.data [] true

/-! ## The HTTP header map

Go's http.Header is a map from canonical header keys to lists of values.
It is modelled as an association list with at most one row per key;
Set, Add, Del and Get canonicalize the key exactly as net/http does.
An existing row with an empty value list models a nil slice
(used by the X-Forwarded-For opt-out). -/

/-- Association-list model of Go http.Header. -/
abbrev Headers := List (String × List String)

/-- Raw lookup of the row for canonical key `k`. -/
def hRow (h : Headers) (k : String) : Option (List String) :=
  (List.find? (fun e => e.1 = canonicalHeaderKey k) h).map (·.2)

/-- Go Header.Values: all values stored under the key. -/
def hValues (h : Headers) (k : String) : List String := (hRow h k).getD []

/-- Go Header.Get: the first value stored under the key, or the empty string. -/
def hGet (h : Headers) (k : String) : String := (hValues h k).headD ""

/-- Go Header.Del: remove the key. -/
def hDel (h : Headers) (k : String) : Headers :=
  List.filter (fun e => ¬(e.1 = canonicalHeaderKey k)) h

/-- Go Header.Set: replace the key's values with the single value `v`. -/
def hSet (h : Headers) (k v : String) : Headers :=
  hDel h k ++ [(canonicalHeaderKey k, [v])]

/-- Go Header.Add: append `v` to the key's values. -/
def hAdd (h : Headers) (k v : String) : Headers :=
  match hRow h k with
  | none => h ++ [(canonicalHeaderKey k, [v])]
  | some vs => hDel h k ++ [(canonicalHeaderKey k, vs ++ [v])]

/-- golang.org/x/net httpguts.HeaderValuesContainsToken: whether any of
    the comma-separated tokens of the values equals `token`
    case-insensitively. -/
def headerValuesContainsToken (values : List String) (token : String) : Bool :=
  values.any fun v =>
    (splitCh ',' v.data).any fun t =>
      strToLower (String.mk (trimOWSL t)) = strToLower token

/-! ## Go path.Clean / path.Join -/

/-- The segment stack of Go path.Clean, folded over the '/'-separated
    segments: empty and "." segments are dropped, ".." pops when
    possible (never past the root when rooted, accumulating when not). -/
def cleanStack (rooted : Bool) (segs : List (List Char)) : List (List Char) :=
  segs.foldl
    (fun st seg =>
      if seg = [] ∨ seg = ['.'] then st
      else if seg = ['.', '.'] then
        if st ≠ [] ∧ st.getLast? ≠ some ['.', '.'] then st.dropLast
        else if rooted then st
        else st ++ [['.', '.']]
      else st ++ [seg])
    []

/-- Go path.Clean. -/
def pathClean (s : String) : String :=
  if s = "" then "."
  else
    let rooted := hasPfx s "/"
    let stack := cleanStack rooted (splitCh '/' s.data)
    if rooted then
      if stack = [] then "/" else String.mk ('/' :: (stack.intersperse ['/']).flatten)
    else
      if stack = [] then "." else String.mk ((stack.intersperse ['/']).flatten)

/-- Go path.Join on two elements; every call site passes two non-empty
    elements, for which Join is Clean of the slash-joined pair. -/
def pathJoin (a b : String) : String := pathClean (a ++ "/" ++ b)

/-! ## Route data model (app/proxy/ratelimit.go, app/proxy routes) -/

/-- The authorization via enumeration; the zero value is the null value. -/
inductive AuthzVia : Type where
  | nullVia | accessToken
deriving DecidableEq

/-- The authorization from enumeration. -/
inductive AuthzFrom : Type where
  | nullFrom | header | cookie
deriving DecidableEq

/-- The authorization policy enumeration. -/
inductive AuthzPolicy : Type where
  | nullPolicy | allowed | permitted | enforced | forbidden | custom | partner
deriving DecidableEq

/-- The resolved authorization triple. -/
structure Authorization : Type where
  via : AuthzVia
  from_ : AuthzFrom
  policy : AuthzPolicy
deriving DecidableEq

/-- The resolved rate-limit block; duration is int64 nanoseconds in Go,
    modelled as an integer. -/
structure RateLimit : Type where
  enabled : Bool
  limit : Nat
  duration : Int
deriving DecidableEq

/-- The resolved CORS block. -/
structure Cors : Type where
  enabled : Bool
  onlyPreflight : Bool
  allowCredentials : Bool
  allowedOrigins : List String
  allowedHeaders : List String
  allowedMethods : List String
  exposedHeaders : List String
deriving DecidableEq

/-- Go zero value of the CORS block. -/
def zeroCors : Cors := ⟨false, false, false, [], [], [], []⟩

/-- Go zero value of the rate-limit block. -/
def zeroRateLimit : RateLimit := ⟨false, 0, 0⟩

/-- A resolved route. The target is the parsed URL, modelled by the URL
    string (url.Parse failures abort configuration parsing and are not
    reachable in any modelled scenario, so parsing is the identity). -/
structure Route : Type where
  cors : Cors
  target : Option String
  rateLimit : RateLimit
  authz : Authorization
  pfx : String
  rewrite : String
deriving DecidableEq

/-- The authorization YAML block. -/
structure ConfigAuthorization : Type where
  via : Option String
  from_ : Option String
  policy : Option String

/-- The cors YAML block. -/
structure ConfigCors : Type where
  enabled : Option Bool
  onlyPreflight : Option Bool
  allowCredentials : Option Bool
  allowedOrigins : Option (List String)
  allowedHeaders : Option (List String)
  allowedMethods : Option (List String)
  exposedHeaders : Option (List String)

/-- The rateLimit YAML block. -/
structure ConfigRateLimit : Type where
  enabled : Option Bool
  limit : Option Nat
  duration : Option Int

/-- A route configuration node (recursive, so an inductive type). -/
inductive ConfigRoute : Type where
  | mk (pfx : String) (target : Option String) (rewrite : Option String)
      (authorization : Option ConfigAuthorization)
      (rateLimit : Option ConfigRateLimit)
      (cors : Option ConfigCors)
      (routes : List ConfigRoute)

/-- The prefix field of a configuration node. -/
def ConfigRoute.pfx : ConfigRoute → String
  | .mk p _ _ _ _ _ _ => p

/-- The target field of a configuration node. -/
def ConfigRoute.target : ConfigRoute → Option String
  | .mk _ t _ _ _ _ _ => t

/-- The rewrite field of a configuration node. -/
def ConfigRoute.rewrite : ConfigRoute → Option String
  | .mk _ _ re _ _ _ _ => re

/-- The authorization block of a configuration node. -/
def ConfigRoute.authorization : ConfigRoute → Option ConfigAuthorization
  | .mk _ _ _ az _ _ _ => az

/-- The rateLimit block of a configuration node. -/
def ConfigRoute.rateLimitCfg : ConfigRoute → Option ConfigRateLimit
  | .mk _ _ _ _ rl _ _ => rl

/-- The cors block of a configuration node. -/
def ConfigRoute.corsCfg : ConfigRoute → Option ConfigCors
  | .mk _ _ _ _ _ co _ => co

/-- The child route list of a configuration node. -/
def ConfigRoute.routes : ConfigRoute → List ConfigRoute
  | .mk _ _ _ _ _ _ rs => rs

/-- The via enum strings accepted by parseAuthorization. -/
def parseVia : Option String → Except String AuthzVia
  | none => .ok .nullVia
  | some "token" => .ok .accessToken
  | some _ => .error "via is not valid"

/-- The from enum strings accepted by parseAuthorization. -/
def parseFrom : Option String → Except String AuthzFrom
  | none => .ok .nullFrom
  | some "header" => .ok .header
  | some "cookie" => .ok .cookie
  | some _ => .error "from is not valid"

/-- The policy enum strings accepted by parseAuthorization. -/
def parsePolicy : Option String → Except String AuthzPolicy
  | none => .ok .nullPolicy
  | some "allowed" => .ok .allowed
  | some "permitted" => .ok .permitted
  | some "enforced" => .ok .enforced
  | some "forbidden" => .ok .forbidden
  | some "custom" => .ok .custom
  | some "partner" => .ok .partner
  | some _ => .error "policy is not valid"

/-- parseAuthorization: map the string enums of the block onto the
    internal enums, rejecting unknown values with the via error first,
    then from, then policy, as the Go code checks them; absent fields
    stay null. -/
def parseAuthorization (r : ConfigRoute) : Except String Authorization :=
  match r.authorization with
  | none => .ok ⟨.nullVia, .nullFrom, .nullPolicy⟩
  | some cfg =>
    match parseVia cfg.via, parseFrom cfg.from_, parsePolicy cfg.policy with
    | .ok av, .ok af, .ok ap => .ok ⟨av, af, ap⟩
    | .error e, _, _ => .error e
    | .ok _, .error e, _ => .error e
    | .ok _, .ok _, .error e => .error e

/-- rateLimit.parse: apply every field the block sets onto the
    inherited value. -/
def rlParse (c : RateLimit) (r : ConfigRoute) : RateLimit :=
  match r.rateLimitCfg with
  | none => c
  | some cfg =>
    let c := match cfg.enabled with | some b => { c with enabled := b } | none => c
    let c := match cfg.limit with | some n => { c with limit := n } | none => c
    match cfg.duration with | some d => { c with duration := d } | none => c

/-- The recognized CORS methods. -/
def recognizedMethods : List String := ["GET", "POST", "PUT", "PATCH", "DELETE"]

/-- isMethodRecognized. -/
def isMethodRecognized (m : String) : Bool := recognizedMethods.contains m

/-- The enabled assignment of cors.parse. -/
def corsApplyEnabled (c : Cors) (cfg : ConfigCors) : Cors :=
  match cfg.enabled with | some b => { c with enabled := b } | none => c

/-- The onlyPreflight assignment of cors.parse, followed by the rule
    that onlyPreflight forces enabled off. -/
def corsApplyOnlyPreflight (c : Cors) (cfg : ConfigCors) : Cors :=
  let c := match cfg.onlyPreflight with | some b => { c with onlyPreflight := b } | none => c
  if c.onlyPreflight then { c with enabled := false } else c

/-- The allowCredentials assignment of cors.parse. -/
def corsApplyCredentials (c : Cors) (cfg : ConfigCors) : Cors :=
  match cfg.allowCredentials with | some b => { c with allowCredentials := b } | none => c

/-- The allowedOrigins assignment of cors.parse: origins are trimmed
    (their url.Parse validation never fails on the strings considered
    here). -/
def corsApplyOrigins (c : Cors) (cfg : ConfigCors) : Cors :=
  match cfg.allowedOrigins with
  | some os => { c with allowedOrigins := os.map trimSpace }
  | none => c

/-- The allowedHeaders assignment of cors.parse: canonicalized. -/
def corsApplyHeaders (c : Cors) (cfg : ConfigCors) : Cors :=
  match cfg.allowedHeaders with
  | some hs => { c with allowedHeaders := hs.map (fun h => canonicalHeaderKey (trimSpace h)) }
  | none => c

/-- The exposedHeaders assignment of cors.parse: canonicalized. -/
def corsApplyExposed (c : Cors) (cfg : ConfigCors) : Cors :=
  match cfg.exposedHeaders with
  | some hs => { c with exposedHeaders := hs.map (fun h => canonicalHeaderKey (trimSpace h)) }
  | none => c

/-- The allowedMethods assignment of cors.parse: upper-cased and checked
    against the recognized set. -/
def corsApplyMethods (c : Cors) (cfg : ConfigCors) : Except String Cors :=
  match cfg.allowedMethods with
  | none => .ok c
  | some ms =>
    let ms := ms.map (fun m => strToUpper (trimSpace m))
    if ms.all isMethodRecognized then .ok { c with allowedMethods := ms }
    else .error "method is not valid"

/-- cors.parse: apply every field the block sets onto the inherited
    value, in the order of the Go code. -/
def corsParse (c : Cors) (r : ConfigRoute) : Except String Cors :=
  match r.corsCfg with
  | none => .ok c
  | some cfg =>
    corsApplyMethods
      (corsApplyExposed
        (corsApplyHeaders
          (corsApplyOrigins
            (corsApplyCredentials
              (corsApplyOnlyPreflight (corsApplyEnabled c cfg) cfg) cfg) cfg) cfg) cfg) cfg

/-- authorization.validate. -/
def Authorization.validate (a : Authorization) : Except String Unit :=
  if a.policy = .nullPolicy then .error "authorization policy cannot be nil"
  else if (a.policy = .permitted ∨ a.policy = .enforced) ∧ a.from_ = .nullFrom then
    .error "authorization from cannot be nil when policy is permitted or enforced"
  else if (a.policy = .permitted ∨ a.policy = .enforced) ∧ a.via = .nullVia then
    .error "authorization via cannot be nil when policy is permitted or enforced"
  else .ok ()

/-- cors.validate. -/
def Cors.validate (c : Cors) : Except String Unit :=
  if ¬c.enabled then .ok ()
  else if c.allowedHeaders = [] then .error "no headers allowed in CORS"
  else if c.allowedMethods = [] then .error "no methods allowed in CORS"
  else if c.allowedOrigins = [] then .error "no origins allowed in CORS"
  else .ok ()

/-- rateLimit.validate. -/
def RateLimit.validate (c : RateLimit) : Except String Unit :=
  if ¬c.enabled then .ok ()
  else if c.limit = 0 then .error "invalid rate limit"
  else if c.duration = 0 then .error "invalid rate limit duration"
  else .ok ()

/-- route.validate. -/
def Route.validate (r : Route) : Except String Unit := do
  r.authz.validate
  r.cors.validate
  r.rateLimit.validate

/-- The parent-inheritance block of addRoutes: target and rewrite are
    taken from the parent when unset, and the authorization fields are
    inherited independently when null. -/
def inheritFrom (pr c : Route) : Route :=
  let c := if c.target = none ∧ pr.target ≠ none then { c with target := pr.target } else c
  let c := if c.rewrite = "" ∧ pr.rewrite ≠ "" then { c with rewrite := pr.rewrite } else c
  let c := if c.authz.via = AuthzVia.nullVia ∧ pr.authz.via ≠ AuthzVia.nullVia then
      { c with authz := { c.authz with via := pr.authz.via } } else c
  let c := if c.authz.from_ = AuthzFrom.nullFrom ∧ pr.authz.from_ ≠ AuthzFrom.nullFrom then
      { c with authz := { c.authz with from_ := pr.authz.from_ } } else c
  let c := if c.authz.policy = AuthzPolicy.nullPolicy ∧ pr.authz.policy ≠ AuthzPolicy.nullPolicy then
      { c with authz := { c.authz with policy := pr.authz.policy } } else c
  c

/-- The validate-then-return tail of the addRoutes loop body: fail with
    the validation error or return the resolved route. -/
def validated (c : Route) : Except String Route :=
  match c.validate with
  | .error e => .error e
  | .ok _ => .ok c

/-- The per-node body of addRoutes: parse the node's own fields, start
    the rateLimit and cors blocks from the parent's resolved values,
    inherit target, rewrite and the authorization fields field-wise from
    the parent when unset, then validate. -/
def resolveRoute (a : Option Route) (r : ConfigRoute) : Except String Route := do
  let u := r.target
  let re := (r.rewrite).getD ""
  let authz ← parseAuthorization r
  let l := rlParse (match a with | some pr => pr.rateLimit | none => zeroRateLimit) r
  let o ← corsParse (match a with | some pr => pr.cors | none => zeroCors) r
  let c : Route :=
    { cors := o, target := u, rewrite := re, rateLimit := l, pfx := r.pfx, authz := authz }
  let c := match a with | none => c | some pr => inheritFrom pr c
  validated c

/-- The route table: the path trie flattened to its key/value pairs
    (keys are the absolute prefixes; addRoutes keeps them unique). -/
abbrev RouteTable := List (String × Route)

mutual

/-- One iteration of the addRoutes loop: skip empty prefixes, resolve
    the route, reject duplicate absolute prefixes, insert, recurse into
    the children with the resolved route as parent. -/
def addRoute (tbl : RouteTable) (p : String) (a : Option Route) :
    ConfigRoute → Except String RouteTable
  | .mk pfx tgt rw az rl co children =>
    if pfx = "" then .ok tbl
    else
      match resolveRoute a (.mk pfx tgt rw az rl co children) with
      | .error e => .error e
      | .ok c =>
        let m := pathJoin p pfx
        if (tbl.find? (fun e => e.1 = m)).isSome then .error "route is already mapped"
        else addRouteList (tbl ++ [(m, c)]) m (some c) children

/-- addRoutes over a child list. -/
def addRouteList (tbl : RouteTable) (p : String) (a : Option Route) :
    List ConfigRoute → Except String RouteTable
  | [] => .ok tbl
  | r :: rs =>
    match addRoute tbl p a r with
    | .error e => .error e
    | .ok tbl' => addRouteList tbl' p a rs

end

/-- parseRoutes on an already-decoded YAML document: build the trie from
    the top-level route list, rooted at "/" with no parent. -/
def parseRoutes (rs : List ConfigRoute) : Except String RouteTable :=
  addRouteList [] "/" none rs

/-! ## Longest-walk matching (routes.match over trie.WalkPath) -/

/-- Whether index `i` of the path is a trie segment boundary: the root,
    the end of the path, or a position holding '/'. -/
def boundaryIdx (cs : List Char) (i : Nat) : Bool :=
  i = 0 ∨ i = cs.length ∨ cs.getD i ' ' = '/'

/-- The keys visited by trie.WalkPath on path `cs`, in root-to-leaf
    order: every prefix of the path cut at a segment boundary. -/
def boundaries (cs : List Char) : List (List Char) :=
  ((List.range (cs.length + 1)).filter (boundaryIdx cs)).map (cs.take ·)

/-- Exact-key lookup in the route table. -/
def lookupTbl (tbl : RouteTable) (k : String) : Option Route :=
  (tbl.find? (fun e => e.1 = k)).map (·.2)

/-- The walk callback of routes.match folded over the visited keys: each
    visited node with a value overwrites the record, so the fold keeps
    the value and key length of the last (deepest) node that has one. -/
def walkFold (tbl : RouteTable) (ks : List (List Char)) : Option (Route × Nat) :=
  ks.foldl
    (fun acc k =>
      match lookupTbl tbl (String.mk k) with
      | some r => some (r, k.length)
      | none => acc)
    none

/-- singleJoiningSlash. -/
def singleJoiningSlash (a b : String) : String :=
  let aSlash := hasSfx a "/"
  let bSlash := hasPfx b "/"
  if b = "" then a
  else if aSlash ∧ bSlash then a ++ String.mk b.data.tail
  else if ¬aSlash ∧ ¬bSlash then a ++ "/" ++ b
  else a ++ b

/-- A match result. -/
structure RMatch : Type where
  path : String
  route : Route
deriving DecidableEq

/-- routes.match: walk the trie along the path; fail when no node was
    seen or the recorded node's target is nil; otherwise rewrite the
    path when the route sets a rewrite. -/
def routesMatch (tbl : RouteTable) (p : String) : Option RMatch :=
  match walkFold tbl (boundaries p.data) with
  | none => none
  | some (t, l) =>
    if t.target = none then none
    else
      some
        { path := if t.rewrite = "" then p else singleJoiningSlash t.rewrite (String.mk (p.data.drop l))
          route := t }

/-! ## CORS runtime (cors.handlePreflight, Proxy.handleCors) -/

/-- Go strings.Join. -/
def strJoin (xs : List String) (sep : String) : String :=
  (xs.intersperse sep).foldl (· ++ ·) ""

/-- The request fields read by the CORS handlers: the method and the
    Origin, Access-Control-Request-Method and
    Access-Control-Request-Headers header values. -/
structure CorsReq : Type where
  method : String
  origin : String
  acrm : String
  acrh : String

/-- cors.areAllOriginsAllowed. -/
def areAllOriginsAllowed (c : Cors) : Bool :=
  c.allowedOrigins.length = 1 ∧ c.allowedOrigins.getD 0 "" = "*"

/-- cors.isOriginAllowed: the wildcard configuration allows everything,
    otherwise the lower-cased origin must equal a configured origin. -/
def isOriginAllowed (c : Cors) (o : String) : Bool :=
  areAllOriginsAllowed c ∨ c.allowedOrigins.contains (strToLower o)

/-- cors.isMethodAllowed: nothing is allowed by an empty method list;
    OPTIONS is always allowed; otherwise the upper-cased method must be
    configured. -/
def isMethodAllowed (c : Cors) (m : String) : Bool :=
  if c.allowedMethods = [] then false
  else if strToUpper m = "OPTIONS" then true
  else c.allowedMethods.contains (strToUpper m)

/-- cors.areHeadersAllowed: every requested header, in canonical form,
    must be configured; an empty request list is allowed. -/
def areHeadersAllowed (c : Cors) (hs : List String) : Bool :=
  hs.all fun x => c.allowedHeaders.any fun h => h = canonicalHeaderKey x

/-- cors.handlePreflight: reject non-OPTIONS, append the three Vary
    headers, then require a non-empty allowed origin, an allowed
    requested method and allowed requested headers; on success set the
    CORS response headers and report true. -/
def handlePreflight (c : Cors) (req : CorsReq) (h : Headers) : Headers × Bool :=
  if ¬(req.method = "OPTIONS") then (h, false)
  else
    let h := hAdd h "Vary" "Origin"
    let h := hAdd h "Vary" "Access-Control-Request-Method"
    let h := hAdd h "Vary" "Access-Control-Request-Headers"
    if req.origin = "" then (h, false)
    else if ¬isOriginAllowed c req.origin then (h, false)
    else if ¬isMethodAllowed c req.acrm then (h, false)
    else
      let reqHeaders := parseHeaderList req.acrh
      if ¬areHeadersAllowed c reqHeaders then (h, false)
      else
        let h :=
          if areAllOriginsAllowed c then hSet h "Access-Control-Allow-Origin" "*"
          else hSet h "Access-Control-Allow-Origin" req.origin
        let h := hSet h "Access-Control-Allow-Methods" (strToUpper req.acrm)
        let h :=
          if reqHeaders.length > 0 then
            hSet h "Access-Control-Allow-Headers" (strJoin reqHeaders ", ")
          else h
        let h :=
          if c.allowCredentials then hSet h "Access-Control-Allow-Credentials" "true" else h
        (h, true)

/-- cors.handleActualRequest: append Vary Origin; silently skip on a
    missing or disallowed origin or method; otherwise set the
    allow-origin, expose-headers and credentials headers. -/
def handleActualRequest (c : Cors) (req : CorsReq) (h : Headers) : Headers :=
  let h := hAdd h "Vary" "Origin"
  if req.origin = "" then h
  else if ¬isOriginAllowed c req.origin then h
  else if ¬isMethodAllowed c req.method then h
  else
    let h :=
      if areAllOriginsAllowed c then hSet h "Access-Control-Allow-Origin" "*"
      else hSet h "Access-Control-Allow-Origin" req.origin
    let h :=
      if c.exposedHeaders.length > 0 then
        hSet h "Access-Control-Expose-Headers" (strJoin c.exposedHeaders ", ")
      else h
    if c.allowCredentials then hSet h "Access-Control-Allow-Credentials" "true" else h

/-- The observable response state written by a gate: the status code, if
    one was written, and the response headers. -/
structure ResponseRec : Type where
  status : Option Nat
  headers : Headers
deriving DecidableEq

/-- Proxy.handleCors: a preflight (OPTIONS with a non-empty
    Access-Control-Request-Method) ends the pipeline with 204 on
    success, 403 on a failed check, and 405 when the route enables
    neither cors nor onlyPreflight; actual requests get the actual-CORS
    headers when enabled and always continue. -/
def handleCors (c : Cors) (req : CorsReq) (w : ResponseRec) : ResponseRec × Bool :=
  if req.method = "OPTIONS" ∧ req.acrm ≠ "" then
    if c.enabled ∨ c.onlyPreflight then
      match handlePreflight c req w.headers with
      | (h, true) => ({ status := some 204, headers := h }, false)
      | (h, false) => ({ status := some 403, headers := h }, false)
    else ({ w with status := some 405 }, false)
  else if c.enabled then ({ w with headers := handleActualRequest c req w.headers }, true)
  else (w, true)

/-! ## Authorization runtime (Proxy.handleAuthorization, token extraction) -/

/-- tokenLength. -/
def tokenLength : Nat := 2

/-- cookieName. -/
def cookieName : String := "blue-session"

/-- The request fields read by the authorization gate: the Authorization
    header value and the raw value of the blue-session cookie, each if
    present. -/
structure AuthReq : Type where
  authHeader : Option String
  sessionCookie : Option String

/-- tokenFromHeader: split the Authorization header value on spaces; the
    token is the second of exactly two components. -/
def tokenFromHeader (r : AuthReq) : String × Bool :=
  let arr := splitCh ' ' (r.authHeader.getD "").data
  if arr.length = tokenLength then (String.mk (arr.getD 1 []), true) else ("", false)

/-- tokenFromCookie: read the session cookie, strip one leading
    "blue-session=" prefix from its value, and succeed when the result
    is non-empty. -/
def tokenFromCookie (r : AuthReq) : String × Bool :=
  match r.sessionCookie with
  | none => ("", false)
  | some v =>
    let value := trimPfx v (cookieName ++ "=")
    (value, value ≠ "")

/-- The error kinds of token.Client.GetIdentity: a non-200 answer from
    the identity service (invalid session) or a failure of the exchange
    call itself (transport or encoding). The gate receives only a
    non-nil error either way. -/
inductive IdentityErr : Type where
  | invalidSession | infrastructure
deriving DecidableEq

/-- The outcome of the authorization gate: continue with the given
    outbound Authorization header value (none means deleted), or halt
    with the given HTTP status. -/
inductive AuthzOutcome : Type where
  | next (outAuth : Option String)
  | halt (status : Nat)
deriving DecidableEq

/-- Proxy.handleAuthorization, with the identity exchange supplied as an
    oracle. custom and partner forward unchanged; allowed deletes the
    Authorization header; forbidden halts 403; permitted and enforced
    extract a token per the from field, delete the Authorization header,
    and on extraction or exchange failure continue (permitted) or halt
    401 (enforced), on success continue with the bearer identity; a null
    policy halts 401. -/
def handleAuthorization (az : Authorization) (r : AuthReq)
    (exchange : String → Except IdentityErr String) : AuthzOutcome :=
  match az.policy with
  | .custom | .partner => .next r.authHeader
  | .allowed => .next none
  | .forbidden => .halt 403
  | .permitted | .enforced =>
    if ¬(az.via = .accessToken) then .halt 401
    else
      let t :=
        match az.from_ with
        | .header => tokenFromHeader r
        | .cookie => tokenFromCookie r
        | .nullFrom => ("", false)
      if ¬t.2 then
        if az.policy = .permitted then .next none else .halt 401
      else
        match exchange t.1 with
        | .error _ => if az.policy = .permitted then .next none else .halt 401
        | .ok i => .next (some ("Bearer " ++ i))
  | .nullPolicy => .halt 401

/-! ## Sliding-window rate limiter (SortedSetCounter.Run)

The sorted set at one key is modelled by the multiset of member scores
(members are fresh unique identifiers, so only scores matter); time is
in milliseconds. One run: count scores in the inclusive range
from now − D upward and deny immediately at the limit; otherwise
atomically remove scores in the inclusive range 0..now − D, add the
request's score, count everything, and deny exactly when the final
count exceeds the limit. -/

/-- Result.State. -/
inductive RLState : Type where
  | allow | deny
deriving DecidableEq

/-- The fast-path ZCount: scores in the inclusive range from `min` up. -/
def fastCount (s : List Int) (min : Int) : Nat :=
  s.countP fun x => decide (min ≤ x)

/-- The pipeline's ZRemRangeByScore over the inclusive range 0..`min`. -/
def slide (s : List Int) (min : Int) : List Int :=
  s.filter fun x => ¬(0 ≤ x ∧ x ≤ min)

/-- SortedSetCounter.Run at one key for one request arriving at `now`,
    with limit `L` and duration `D` (milliseconds): the new score
    multiset and the decision. -/
def sortedSetRun (L : Nat) (D : Int) (s : List Int) (now : Int) : List Int × RLState :=
  let min := now - D
  if L ≤ fastCount s min then (s, .deny)
  else
    let s' := slide s min ++ [now]
    if L < s'.length then (s', .deny) else (s', .allow)

/-- A sequential per-key execution: run the strategy once per request
    timestamp, threading the store state; returns the final state and
    the timestamped decisions. -/
def runTrace (L : Nat) (D : Int) (s : List Int) : List Int → List Int × List (Int × RLState)
  | [] => (s, [])
  | t :: ts =>
    let p := sortedSetRun L D s t
    let q := runTrace L D p.1 ts
    (q.1, (t, p.2) :: q.2)

/-- The number of Allow decisions with timestamp in the half-open
    window from `lo` exclusive to `hi` inclusive. -/
def allowsWithin (evs : List (Int × RLState)) (lo hi : Int) : Nat :=
  evs.countP fun e => decide (e.2 = RLState.allow ∧ lo < e.1 ∧ e.1 ≤ hi)

/-- The number of Allow decisions with timestamp in the closed window
    from `lo` to `hi`. -/
def allowsClosed (evs : List (Int × RLState)) (lo hi : Int) : Nat :=
  evs.countP fun e => decide (e.2 = RLState.allow ∧ lo ≤ e.1 ∧ e.1 ≤ hi)

/-! ## Forwarder header preparation (Proxy.handle, hop-by-hop scrubbing) -/

/-- The fixed hop-by-hop header list of the proxy. -/
def hopHeaders : List String :=
  ["Connection", "Proxy-Connection", "Keep-Alive", "Proxy-Authenticate",
    "Proxy-Authorization", "Te", "Trailer", "Transfer-Encoding", "Upgrade"]

/-- removeConnectionHeaders: delete every header named by a
    comma-separated token of the Connection header values (the value
    list is captured before the deletions, as Go's range does). -/
def removeConnectionHeaders (h : Headers) : Headers :=
  (hValues h "Connection").foldl
    (fun acc f =>
      (splitCh ',' f.data).foldl
        (fun acc sf =>
          let sf := String.mk (trimOWSL sf)
          if sf ≠ "" then hDel acc sf else acc)
        acc)
    h

/-- upgradeType: the lower-cased Upgrade header value when the
    Connection header carries an Upgrade token, empty otherwise. -/
def upgradeType (h : Headers) : String :=
  if ¬headerValuesContainsToken (hValues h "Connection") "Upgrade" then ""
  else strToLower (hGet h "Upgrade")

/-- The default-User-Agent suppression of modifyRequest: set an empty
    User-Agent when the request has none. -/
def uaDefault (h : Headers) : Headers :=
  if (hRow h "User-Agent").isNone then hSet h "User-Agent" "" else h

/-- The outbound header preparation of Proxy.handle after the policy
    gates: clone, the default-User-Agent suppression of modifyRequest,
    Connection-token scrubbing, fixed hop-by-hop scrubbing, the Te and
    Upgrade re-sets, and the X-Forwarded-For fold (`remoteHost` is the
    client host when net.SplitHostPort succeeds on the peer address). -/
def prepareOutbound (reqHeaders : Headers) (remoteHost : Option String) : Headers :=
  let out := uaDefault reqHeaders
  let reqUpType := upgradeType out
  let out := removeConnectionHeaders out
  let out := hopHeaders.foldl (fun h k => hDel h k) out
  let out :=
    if headerValuesContainsToken (hValues reqHeaders "Te") "trailers" then
      hSet out "Te" "trailers"
    else out
  let out :=
    if reqUpType ≠ "" then hSet (hSet out "Connection" "Upgrade") "Upgrade" reqUpType
    else out
  match remoteHost with
  | none => out
  | some clientIP =>
    let prior := hRow out "X-Forwarded-For"
    let skipXff := prior = some []
    let ip :=
      match prior with
      | some (v :: vs) => strJoin (v :: vs) ", " ++ ", " ++ clientIP
      | _ => clientIP
    if ¬skipXff then hSet out "X-Forwarded-For" ip else out

/-! ## Concrete fixtures used by counterexamples and witnesses -/

/-- An authorization block selecting policy allowed (no via / from). -/
def azAllowed : Option ConfigAuthorization := some ⟨none, none, some "allowed"⟩

/-- A top-level route at prefix "/a" with a target. -/
def cfgA : ConfigRoute := .mk "/a" (some "http://u") none azAllowed none none []

/-- A top-level route at prefix "/a/b" without a target; it is a sibling
    of "/a" in the configuration, not its child, so it inherits nothing. -/
def cfgAB : ConfigRoute := .mk "/a/b" none none azAllowed none none []

/-- The resolved route of cfgA. -/
def rA : Route :=
  { cors := zeroCors, target := some "http://u", rateLimit := zeroRateLimit
    authz := ⟨.nullVia, .nullFrom, .allowed⟩, pfx := "/a", rewrite := "" }

/-- The resolved route of cfgAB. -/
def rAB : Route :=
  { cors := zeroCors, target := none, rateLimit := zeroRateLimit
    authz := ⟨.nullVia, .nullFrom, .allowed⟩, pfx := "/a/b", rewrite := "" }

/-- The route table parsed from [cfgA, cfgAB]. -/
def tblC1 : RouteTable := [("/a", rA), ("/a/b", rAB)]

/-- A parent cors block: enabled with the wildcard origin. -/
def corsParentCfg : Option ConfigCors :=
  some ⟨some true, none, none, some ["*"], some ["X-Y"], some ["get"], none⟩

/-- A child cors block setting only onlyPreflight. -/
def corsChildCfg : Option ConfigCors :=
  some ⟨none, some true, none, none, none, none, none⟩

/-- The child configuration node of the inheritance counterexample. -/
def cfg6Child : ConfigRoute := .mk "/b" none none none none corsChildCfg []

/-- The parent configuration node of the inheritance counterexample. -/
def cfg6 : ConfigRoute :=
  .mk "/a" (some "http://u") none azAllowed none corsParentCfg [cfg6Child]

/-- The route table parsed from [cfg6]. -/
def tbl6 : RouteTable := (parseRoutes [cfg6]).toOption.getD []

/-- A CORS block allowing https://a with GET and POST and Content-Type. -/
def corsFix : Cors := ⟨true, false, false, ["https://a"], ["Content-Type"], ["GET", "POST"], []⟩

/-- The resolved route of cfg6Child under parent rA. -/
def cW : Route :=
  { cors := ⟨false, true, false, [], [], [], []⟩, target := some "http://u"
    rateLimit := zeroRateLimit, authz := ⟨.nullVia, .nullFrom, .allowed⟩
    pfx := "/b", rewrite := "" }

/-- The header names listed as comma-separated tokens of the inbound
    Connection header (trimmed, empty tokens dropped), i.e. the names
    removeConnectionHeaders deletes. -/
def connTokens (h : Headers) : List String :=
  (hValues h "Connection").flatMap fun f =>
    ((splitCh ',' f.data).map (fun sf => String.mk (trimOWSL sf))).filter (fun x => x ≠ "")

/-- The number of member scores strictly above `t` in a store state. -/
def memCount (s : List Int) (t : Int) : Nat :=
  s.countP fun x => decide (t < x)

/-- The token source selected by the from field, as read by
    Proxy.handleAuthorization. -/
def tokenFromSource (f : AuthzFrom) (r : AuthReq) : String × Bool :=
  match f with
  | .header => tokenFromHeader r
  | .cookie => tokenFromCookie r
  | .nullFrom => ("", false)

/-- The success condition of a preflight check: a non-empty allowed
    origin, an allowed requested method and allowed requested headers. -/
def preflightOk (c : Cors) (req : CorsReq) : Prop :=
  req.origin ≠ "" ∧ isOriginAllowed c req.origin = true ∧
    isMethodAllowed c req.acrm = true ∧
    areHeadersAllowed c (parseHeaderList req.acrh) = true

instance (c : Cors) (req : CorsReq) : Decidable (preflightOk c req) := by
  unfold preflightOk; infer_instance

/-! ## Claim theorems -/

/-- Claim C9: whenever routes.match returns ok, the returned route's
    target URL is non-nil, so the forwarder's target rewrite only ever
    sees a route with a target. -/
theorem match_target_nonnil (tbl : RouteTable) (p : String) (m : RMatch)
    (h : routesMatch tbl p = some m) : m.route.target ≠ none := by
  unfold routesMatch at h
  cases hw : walkFold tbl (boundaries p.data) with
  | none => rw [hw] at h; exact absurd h (by simp)
  | some tl =>
    rw [hw] at h
    by_cases ht : tl.1.target = none
    · simp [ht] at h
    · simp only [ht, if_false] at h
      cases h
      simpa using ht

/-- Witness for C9 at a concrete parsed table and path. -/
theorem match_target_nonnil_witness :
    routesMatch tblC1 "/a/x" = some ⟨"/a/x", rA⟩ ∧ (⟨"/a/x", rA⟩ : RMatch).route.target ≠ none :=
  ⟨by decide, match_target_nonnil tblC1 "/a/x" ⟨"/a/x", rA⟩ (by decide)⟩

/-- Claim C3: on a validated permitted route (via set to the access
    token, from set), the gate never blocks: extraction or exchange
    failure forwards with the Authorization header deleted, and success
    forwards with Authorization set to exactly "Bearer " followed by the
    identity token. -/
theorem permitted_best_effort (f : AuthzFrom) (r : AuthReq)
    (exchange : String → Except IdentityErr String)
    (hf : f = .header ∨ f = .cookie) :
    (∀ st, handleAuthorization ⟨.accessToken, f, .permitted⟩ r exchange ≠ .halt st) ∧
    ((tokenFromSource f r).2 = false →
      handleAuthorization ⟨.accessToken, f, .permitted⟩ r exchange = .next none) ∧
    (∀ e, exchange (tokenFromSource f r).1 = .error e →
      handleAuthorization ⟨.accessToken, f, .permitted⟩ r exchange = .next none) ∧
    (∀ i, (tokenFromSource f r).2 = true → exchange (tokenFromSource f r).1 = .ok i →
      handleAuthorization ⟨.accessToken, f, .permitted⟩ r exchange =
        .next (some ("Bearer " ++ i))) := by
  have hunf : handleAuthorization ⟨.accessToken, f, .permitted⟩ r exchange =
      (if ¬(tokenFromSource f r).2 then .next none
       else match exchange (tokenFromSource f r).1 with
         | .error _ => .next none
         | .ok i => .next (some ("Bearer " ++ i))) := by
    rcases hf with hf | hf <;> subst hf <;>
      simp [handleAuthorization, tokenFromSource]
  refine ⟨?_, ?_, ?_, ?_⟩
  · intro st hst
    rw [hunf] at hst
    by_cases h2 : (tokenFromSource f r).2
    · simp only [h2, not_true, if_false] at hst
      cases hex : exchange (tokenFromSource f r).1 <;> rw [hex] at hst <;> cases hst
    · simp [h2] at hst
  · intro h2; rw [hunf]; simp [h2]
  · intro e he; rw [hunf]
    by_cases h2 : (tokenFromSource f r).2
    · simp only [h2, not_true, if_false, he]
    · simp [h2]
  · intro i h2 hex; rw [hunf]; simp [h2, hex]

/-- Witness for C3 at a concrete request and exchange oracle. -/
theorem permitted_best_effort_witness :
    (AuthzFrom.header = .header ∨ AuthzFrom.header = .cookie) ∧
    handleAuthorization ⟨.accessToken, .header, .permitted⟩ ⟨some "Bearer tok", none⟩
      (fun t => .ok t) = .next (some ("Bearer " ++ "tok")) :=
  ⟨Or.inl rfl,
    (permitted_best_effort .header ⟨some "Bearer tok", none⟩ (fun t => .ok t)
      (Or.inl rfl)).2.2.2 "tok" (by decide) rfl⟩

/-- Counterexample to C4: on an enforced route with a token present, an
    infrastructure failure of the identity exchange (a failed transport
    call, not a non-200 invalid-session answer) yields status 401, not
    the 500 the claim states. -/
theorem enforced_infra_failure_cex :
    handleAuthorization ⟨.accessToken, .header, .enforced⟩ ⟨some "Bearer tok", none⟩
      (fun _ => .error .infrastructure) = .halt 401 ∧ (401 : Nat) ≠ 500 :=
  ⟨by decide, by decide⟩

/-- Claim C4 as amended: on a validated enforced route, a missing token
    yields 401, and any identity-exchange error — an invalid-session
    answer or an infrastructure failure alike — also yields 401; the
    gate does not distinguish the two error kinds. -/
theorem enforced_failures_401 (f : AuthzFrom) (r : AuthReq)
    (exchange : String → Except IdentityErr String)
    (hf : f = .header ∨ f = .cookie) :
    ((tokenFromSource f r).2 = false →
      handleAuthorization ⟨.accessToken, f, .enforced⟩ r exchange = .halt 401) ∧
    (∀ e, exchange (tokenFromSource f r).1 = .error e →
      handleAuthorization ⟨.accessToken, f, .enforced⟩ r exchange = .halt 401) := by
  have hunf : handleAuthorization ⟨.accessToken, f, .enforced⟩ r exchange =
      (if ¬(tokenFromSource f r).2 then .halt 401
       else match exchange (tokenFromSource f r).1 with
         | .error _ => .halt 401
         | .ok i => .next (some ("Bearer " ++ i))) := by
    rcases hf with hf | hf <;> subst hf <;>
      simp [handleAuthorization, tokenFromSource]
  constructor
  · intro h2; rw [hunf]; simp [h2]
  · intro e he; rw [hunf]
    by_cases h2 : (tokenFromSource f r).2
    · simp only [h2, not_true, if_false, he]
    · simp [h2]

/-- Witness for the amended C4 at a concrete request. -/
theorem enforced_failures_401_witness :
    handleAuthorization ⟨.accessToken, .header, .enforced⟩ ⟨none, none⟩
      (fun _ => .error .invalidSession) = .halt 401 :=
  (enforced_failures_401 .header ⟨none, none⟩ (fun _ => .error .invalidSession)
    (Or.inl rfl)).1 (by decide)

/-- Counterexample to C5: a session cookie whose raw value is
    "blue-session=tok" is present and non-empty, yet the token handed to
    the identity exchange is "tok" — the raw value with the
    "blue-session=" prefix stripped — as the bearer header built from an
    identity oracle echoing its input shows. -/
theorem cookie_raw_value_cex :
    tokenFromCookie ⟨none, some "blue-session=tok"⟩ = ("tok", true) ∧
    handleAuthorization ⟨.accessToken, .cookie, .permitted⟩ ⟨none, some "blue-session=tok"⟩
      (fun t => .ok t) = .next (some ("Bearer " ++ "tok")) ∧
    "tok" ≠ "blue-session=tok" :=
  ⟨by decide, by decide, by decide⟩

/-- Claim C5 as amended: with from set to cookie and the session cookie
    present, the token passed to the identity exchange is the cookie
    value with one leading "blue-session=" prefix removed when present
    (the raw value when the prefix is absent), provided the stripped
    value is non-empty. -/
theorem cookie_token_trimmed (v : String) (ah : Option String)
    (exchange : String → Except IdentityErr String)
    (hne : trimPfx v (cookieName ++ "=") ≠ "") :
    tokenFromCookie ⟨ah, some v⟩ = (trimPfx v (cookieName ++ "="), true) ∧
    handleAuthorization ⟨.accessToken, .cookie, .permitted⟩ ⟨ah, some v⟩ exchange =
      (match exchange (trimPfx v (cookieName ++ "=")) with
        | .ok i => .next (some ("Bearer " ++ i))
        | .error _ => .next none) := by
  have htok : tokenFromCookie ⟨ah, some v⟩ = (trimPfx v (cookieName ++ "="), true) := by
    simp [tokenFromCookie, hne]
  refine ⟨htok, ?_⟩
  simp only [handleAuthorization, htok]
  cases hex : exchange (trimPfx v (cookieName ++ "=")) <;> simp [hex]

/-- Witness for the amended C5 at a concrete cookie value carrying the
    cookie-name prefix. -/
theorem cookie_token_trimmed_witness :
    trimPfx "blue-session=abc" (cookieName ++ "=") ≠ "" ∧
    tokenFromCookie ⟨none, some "blue-session=abc"⟩ =
      (trimPfx "blue-session=abc" (cookieName ++ "="), true) :=
  ⟨by decide,
    (cookie_token_trimmed "blue-session=abc" none (fun t => .ok t) (by decide)).1⟩

/-- Claim C10: when the fast-path count is below the limit the pipeline
    runs, and the request's member is added to the sorted set even when
    the final count exceeds the limit and the outcome is Deny — the
    denied request still mutates the store — whereas a fast-path denial
    leaves the store unchanged. -/
theorem pipeline_deny_adds_member (L : Nat) (D now : Int) (s : List Int)
    (hfast : fastCount s (now - D) < L)
    (hfinal : L < (slide s (now - D)).length + 1) :
    (sortedSetRun L D s now).2 = .deny ∧
    (sortedSetRun L D s now).1 = slide s (now - D) ++ [now] ∧
    now ∈ (sortedSetRun L D s now).1 ∧
    (∀ s₂ : List Int, L ≤ fastCount s₂ (now - D) → sortedSetRun L D s₂ now = (s₂, .deny)) := by
  have hrun : sortedSetRun L D s now = (slide s (now - D) ++ [now], .deny) := by
    unfold sortedSetRun
    rw [if_neg (by omega)]
    rw [if_pos (by simpa using hfinal)]
  refine ⟨by rw [hrun], by rw [hrun], ?_, ?_⟩
  · rw [hrun]; simp
  · intro s₂ h₂
    unfold sortedSetRun
    rw [if_pos h₂]

/-- Witness for C10: a store state whose members all lie outside the
    fast-path range yet survive the expiry removal. -/
theorem pipeline_deny_adds_member_witness :
    fastCount [-3] ((105 : Int) - 5) < 1 ∧
    1 < (slide [-3] ((105 : Int) - 5)).length + 1 ∧
    (sortedSetRun 1 5 [-3] 105).2 = .deny ∧
    (105 : Int) ∈ (sortedSetRun 1 5 [-3] 105).1 :=
  ⟨by decide, by decide,
    (pipeline_deny_adds_member 1 5 105 [-3] (by decide) (by decide)).1,
    (pipeline_deny_adds_member 1 5 105 [-3] (by decide) (by decide)).2.2.1⟩

/-! ## Header-map lemmas -/

theorem find?_filter_keep {A : Type} (l : List A) (p q : A → Bool)
    (h : ∀ a, p a = true → q a = true) : (l.filter q).find? p = l.find? p := by
  induction l with
  | nil => rfl
  | cons a rest ih =>
    cases hq : q a with
    | true =>
      cases hpa : p a with
      | true => simp [List.filter_cons, hq, List.find?_cons, hpa]
      | false => simp [List.filter_cons, hq, List.find?_cons, hpa, ih]
    | false =>
      have hpa : p a = false := by
        cases hpc : p a with
        | false => rfl
        | true => rw [h a hpc] at hq; cases hq
      simp [List.filter_cons, hq, List.find?_cons, hpa, ih]

theorem hRow_hSet_self (h : Headers) (k v : String) : hRow (hSet h k v) k = some [v] := by
  unfold hRow hSet hDel
  rw [List.find?_append]
  have h1 : List.find? (fun e => e.1 = canonicalHeaderKey k)
      (List.filter (fun e => ¬(e.1 = canonicalHeaderKey k)) h) = none := by
    rw [List.find?_eq_none]
    intro x hx
    have := (List.mem_filter.mp hx).2
    simpa using this
  rw [h1]
  simp [List.find?]

theorem hRow_hSet_ne (h : Headers) (k k' v : String)
    (hne : canonicalHeaderKey k ≠ canonicalHeaderKey k') :
    hRow (hSet h k' v) k = hRow h k := by
  unfold hRow hSet hDel
  rw [List.find?_append]
  rw [find?_filter_keep _ _ _ (fun a ha => ?side)]
  case side =>
    have ha' : a.1 = canonicalHeaderKey k := by simpa using ha
    simp only [ha', decide_eq_true_eq]
    exact fun hc => hne hc
  have h2 : List.find? (fun e => e.1 = canonicalHeaderKey k)
      [(canonicalHeaderKey k', [v])] = none := by
    rw [List.find?_eq_none]
    intro x hx
    rcases List.mem_singleton.mp hx with rfl
    simp only [decide_eq_true_eq]
    exact fun hc => hne hc.symm
  rw [h2]
  cases List.find? (fun e => e.1 = canonicalHeaderKey k) h <;> rfl

theorem hGet_hSet_self (h : Headers) (k v : String) : hGet (hSet h k v) k = v := by
  unfold hGet hValues
  rw [hRow_hSet_self]
  rfl

theorem hGet_hSet_ne (h : Headers) (k k' v : String)
    (hne : canonicalHeaderKey k ≠ canonicalHeaderKey k') :
    hGet (hSet h k' v) k = hGet h k := by
  unfold hGet hValues
  rw [hRow_hSet_ne h k k' v hne]

theorem hRow_hDel_self (h : Headers) (k : String) : hRow (hDel h k) k = none := by
  unfold hRow hDel
  have h1 : List.find? (fun e => e.1 = canonicalHeaderKey k)
      (List.filter (fun e => ¬(e.1 = canonicalHeaderKey k)) h) = none := by
    rw [List.find?_eq_none]
    intro x hx
    have := (List.mem_filter.mp hx).2
    simpa using this
  rw [h1]
  rfl

theorem hRow_hDel_ne (h : Headers) (k k' : String)
    (hne : canonicalHeaderKey k ≠ canonicalHeaderKey k') :
    hRow (hDel h k') k = hRow h k := by
  unfold hRow hDel
  rw [find?_filter_keep _ _ _ (fun a ha => ?side)]
  case side =>
    have ha' : a.1 = canonicalHeaderKey k := by simpa using ha
    simp only [ha', decide_eq_true_eq]
    exact fun hc => hne hc

/-! ## Claim C7: CORS preflight -/

theorem areAllOrigins_iff (c : Cors) :
    areAllOriginsAllowed c = true ↔ c.allowedOrigins = ["*"] := by
  unfold areAllOriginsAllowed
  cases h : c.allowedOrigins with
  | nil => simp
  | cons a rest =>
    cases rest with
    | nil => simp
    | cons b rest' => simp

theorem handlePreflight_snd (c : Cors) (req : CorsReq) (h : Headers)
    (hm : req.method = "OPTIONS") :
    ((handlePreflight c req h).2 = true ↔ preflightOk c req) := by
  by_cases ho : req.origin = ""
  · have hpf : (handlePreflight c req h).2 = false := by
      simp [handlePreflight, hm, ho]
    rw [hpf]
    simp [preflightOk, ho]
  · by_cases hoa : isOriginAllowed c req.origin = true
    · by_cases hma : isMethodAllowed c req.acrm = true
      · by_cases hha : areHeadersAllowed c (parseHeaderList req.acrh) = true
        · have hpf : (handlePreflight c req h).2 = true := by
            simp [handlePreflight, hm, ho, hoa, hma, hha]
          rw [hpf]
          simp [preflightOk, ho, hoa, hma, hha]
        · have hpf : (handlePreflight c req h).2 = false := by
            simp [handlePreflight, hm, ho, hoa, hma, hha]
          rw [hpf]
          simp [preflightOk, hha]
      · have hpf : (handlePreflight c req h).2 = false := by
          simp [handlePreflight, hm, ho, hoa, hma]
        rw [hpf]
        simp [preflightOk, hma]
    · have hpf : (handlePreflight c req h).2 = false := by
        simp [handlePreflight, hm, ho, hoa]
      rw [hpf]
      simp [preflightOk, hoa]

theorem handlePreflight_headers (c : Cors) (req : CorsReq) (h : Headers)
    (hm : req.method = "OPTIONS") (hok : preflightOk c req) :
    hGet (handlePreflight c req h).1 "Access-Control-Allow-Origin" =
      (if c.allowedOrigins = ["*"] then "*" else req.origin) ∧
    hGet (handlePreflight c req h).1 "Access-Control-Allow-Methods" = strToUpper req.acrm := by
  obtain ⟨ho, hoa, hma, hha⟩ := hok
  simp only [handlePreflight, hm, ho, hoa, hma, hha]
  simp only [not_true, Bool.true_eq_false, if_false, not_false_iff, if_true,
    eq_self_iff_true, if_neg ho]
  constructor
  · rw [apply_ite (fun x => hGet x "Access-Control-Allow-Origin")]
    rw [hGet_hSet_ne _ _ _ _ (by decide), ite_self]
    rw [apply_ite (fun x => hGet x "Access-Control-Allow-Origin")]
    rw [hGet_hSet_ne _ _ _ _ (by decide), ite_self]
    rw [hGet_hSet_ne _ _ _ _ (by decide)]
    rw [apply_ite (fun x => hGet x "Access-Control-Allow-Origin")]
    rw [hGet_hSet_self, hGet_hSet_self]
    exact if_congr (areAllOrigins_iff c) rfl rfl
  · rw [apply_ite (fun x => hGet x "Access-Control-Allow-Methods")]
    rw [hGet_hSet_ne _ _ _ _ (by decide), ite_self]
    rw [apply_ite (fun x => hGet x "Access-Control-Allow-Methods")]
    rw [hGet_hSet_ne _ _ _ _ (by decide), ite_self]
    rw [hGet_hSet_self]

/-- Claim C7: an OPTIONS request carrying Access-Control-Request-Method
    gets 405 on a route with neither cors.enabled nor onlyPreflight; on
    a route with one of them set it gets 204 when the origin is
    non-empty and allowed, the requested method allowed and every
    requested header allowed — with Access-Control-Allow-Origin equal to
    "*" exactly when the configured origins are ["*"] and the echoed
    origin otherwise, and Access-Control-Allow-Methods the upper-cased
    requested method — and 403 when any of those checks fails. -/
theorem cors_preflight_contract (c : Cors) (req : CorsReq) (w : ResponseRec)
    (hm : req.method = "OPTIONS") (ha : req.acrm ≠ "") :
    (¬(c.enabled = true ∨ c.onlyPreflight = true) →
      (handleCors c req w).1.status = some 405) ∧
    ((c.enabled = true ∨ c.onlyPreflight = true) →
      (preflightOk c req →
        (handleCors c req w).1.status = some 204 ∧
        hGet (handleCors c req w).1.headers "Access-Control-Allow-Origin" =
          (if c.allowedOrigins = ["*"] then "*" else req.origin) ∧
        hGet (handleCors c req w).1.headers "Access-Control-Allow-Methods" =
          strToUpper req.acrm) ∧
      (¬preflightOk c req → (handleCors c req w).1.status = some 403)) := by
  have hcond : (req.method = "OPTIONS" ∧ req.acrm ≠ "") := ⟨hm, ha⟩
  unfold handleCors
  rw [if_pos hcond]
  constructor
  · intro hnone
    rw [if_neg (by simpa using hnone)]
  · intro hsome
    rw [if_pos (by simpa using hsome)]
    constructor
    · intro hok
      have h2 : (handlePreflight c req w.headers).2 = true :=
        (handlePreflight_snd c req w.headers hm).mpr hok
      have hhdr := handlePreflight_headers c req w.headers hm hok
      cases hpf : handlePreflight c req w.headers with
      | mk hh bb =>
        rw [hpf] at h2 hhdr
        simp only at h2
        subst h2
        exact ⟨rfl, hhdr.1, hhdr.2⟩
    · intro hnok
      have h2 : (handlePreflight c req w.headers).2 ≠ true :=
        fun hc => hnok ((handlePreflight_snd c req w.headers hm).mp hc)
      cases hpf : handlePreflight c req w.headers with
      | mk hh bb =>
        rw [hpf] at h2
        simp only at h2
        cases bb with
        | true => exact absurd rfl h2
        | false => rfl

/-- Witness for C7 at a concrete enabled route and preflight request. -/
theorem cors_preflight_contract_witness :
    preflightOk corsFix ⟨"OPTIONS", "https://a", "post", "content-type"⟩ ∧
    (handleCors corsFix ⟨"OPTIONS", "https://a", "post", "content-type"⟩
        ⟨none, []⟩).1.status = some 204 :=
  ⟨by decide,
    ((cors_preflight_contract corsFix ⟨"OPTIONS", "https://a", "post", "content-type"⟩
        ⟨none, []⟩ rfl (by decide)).2 (Or.inl rfl) |>.1 (by decide)).1⟩

/-! ## Claim C8: hop-by-hop scrubbing -/

theorem hRow_congr (h : Headers) (k k' : String)
    (hc : canonicalHeaderKey k = canonicalHeaderKey k') : hRow h k = hRow h k' := by
  unfold hRow
  rw [hc]

theorem hRow_hDel_none (h : Headers) (k k' : String) (h0 : hRow h k = none) :
    hRow (hDel h k') k = none := by
  by_cases hc : canonicalHeaderKey k = canonicalHeaderKey k'
  · rw [hRow_congr (hDel h k') k k' hc]
    exact hRow_hDel_self h k'
  · rw [hRow_hDel_ne h k k' hc]
    exact h0

theorem hRow_hSet_none (h : Headers) (k k' v : String)
    (hc : canonicalHeaderKey k ≠ canonicalHeaderKey k') (h0 : hRow h k = none) :
    hRow (hSet h k' v) k = none := by
  rw [hRow_hSet_ne h k k' v hc]
  exact h0

theorem hRow_foldl_hDel_none (ks : List String) (h : Headers) (k : String)
    (h0 : hRow h k = none) :
    hRow (ks.foldl (fun acc x => hDel acc x) h) k = none := by
  induction ks generalizing h with
  | nil => exact h0
  | cons x rest ih => exact ih (hDel h x) (hRow_hDel_none h k x h0)

theorem hRow_foldl_hDel_mem (ks : List String) (h : Headers) (k : String)
    (hmem : ∃ x ∈ ks, canonicalHeaderKey x = canonicalHeaderKey k) :
    hRow (ks.foldl (fun acc x => hDel acc x) h) k = none := by
  induction ks generalizing h with
  | nil => exact absurd hmem (by simp)
  | cons x rest ih =>
    rcases hmem with ⟨y, hy, hcy⟩
    rcases List.mem_cons.mp hy with rfl | hyr
    · have hdel : hRow (hDel h y) k = none := by
        rw [hRow_congr (hDel h y) k y hcy.symm]
        exact hRow_hDel_self h y
      exact hRow_foldl_hDel_none rest (hDel h y) k hdel
    · exact ih (hDel h x) ⟨y, hyr, hcy⟩

theorem inner_fold_none (ts : List (List Char)) (acc : Headers) (k : String)
    (h0 : hRow acc k = none) :
    hRow (ts.foldl
      (fun acc sf =>
        let sf := String.mk (trimOWSL sf)
        if sf ≠ "" then hDel acc sf else acc) acc) k = none := by
  induction ts generalizing acc with
  | nil => exact h0
  | cons t rest ih =>
    simp only [List.foldl_cons]
    by_cases ht : String.mk (trimOWSL t) ≠ ""
    · exact ih _ (by simpa [ht] using hRow_hDel_none acc k (String.mk (trimOWSL t)) h0)
    · exact ih _ (by simpa [ht] using h0)

theorem inner_fold_mem (ts : List (List Char)) (acc : Headers) (k : String)
    (hmem : ∃ sf ∈ ts, String.mk (trimOWSL sf) ≠ "" ∧
      canonicalHeaderKey (String.mk (trimOWSL sf)) = canonicalHeaderKey k) :
    hRow (ts.foldl
      (fun acc sf =>
        let sf := String.mk (trimOWSL sf)
        if sf ≠ "" then hDel acc sf else acc) acc) k = none := by
  induction ts generalizing acc with
  | nil => exact absurd hmem (by simp)
  | cons t rest ih =>
    simp only [List.foldl_cons]
    rcases hmem with ⟨y, hy, hyne, hyc⟩
    rcases List.mem_cons.mp hy with rfl | hyr
    · have hdel : hRow (hDel acc (String.mk (trimOWSL y))) k = none := by
        rw [hRow_congr _ k (String.mk (trimOWSL y)) hyc.symm]
        exact hRow_hDel_self acc (String.mk (trimOWSL y))
      exact inner_fold_none rest _ k (by simpa [hyne] using hdel)
    · by_cases ht : String.mk (trimOWSL t) ≠ ""
      · exact ih _ ⟨y, hyr, hyne, hyc⟩
      · exact ih _ ⟨y, hyr, hyne, hyc⟩

theorem rch_none (acc : Headers) (k : String) (h0 : hRow acc k = none)
    (vs : List String) :
    hRow (vs.foldl
      (fun acc f =>
        (splitCh ',' f.data).foldl
          (fun acc sf =>
            let sf := String.mk (trimOWSL sf)
            if sf ≠ "" then hDel acc sf else acc) acc) acc) k = none := by
  induction vs generalizing acc with
  | nil => exact h0
  | cons v rest ih =>
    simp only [List.foldl_cons]
    exact ih _ (inner_fold_none (splitCh ',' v.data) acc k h0)

theorem removeConnectionHeaders_mem (h : Headers) (k : String)
    (hmem : ∃ x ∈ connTokens h, canonicalHeaderKey x = canonicalHeaderKey k) :
    hRow (removeConnectionHeaders h) k = none := by
  unfold removeConnectionHeaders
  rcases hmem with ⟨x, hx, hxc⟩
  unfold connTokens at hx
  rw [List.mem_flatMap] at hx
  rcases hx with ⟨v, hv, hxv⟩
  rw [List.mem_filter] at hxv
  rcases hxv with ⟨hxm, hxne⟩
  rw [List.mem_map] at hxm
  rcases hxm with ⟨sf, hsf, rfl⟩
  rcases List.append_of_mem hv with ⟨l₁, l₂, heq⟩
  rw [heq, List.foldl_append]
  simp only [List.foldl_cons]
  have hinner : hRow ((splitCh ',' v.data).foldl
      (fun acc sf =>
        let sf := String.mk (trimOWSL sf)
        if sf ≠ "" then hDel acc sf else acc)
      (l₁.foldl
        (fun acc f =>
          (splitCh ',' f.data).foldl
            (fun acc sf =>
              let sf := String.mk (trimOWSL sf)
              if sf ≠ "" then hDel acc sf else acc) acc) h)) k = none := by
    apply inner_fold_mem
    exact ⟨sf, hsf, by simpa using hxne, hxc⟩
  exact rch_none _ k hinner l₂

/-- Counterexample to C8: a request advertising Te: trailers is admitted
    and forwarded, and after preparation the outbound header map still
    carries Te — one of the fixed hop-by-hop headers the claim says are
    all absent. -/
theorem te_survives_scrub_cex :
    hRow (prepareOutbound [("Te", ["trailers"])] none) "Te" = some ["trailers"] ∧
    "Te" ∈ hopHeaders :=
  ⟨by decide, by decide⟩

/-- Claim C8 as amended: after the forwarder prepares the outbound
    request, the outbound header map contains none of the fixed
    hop-by-hop headers and none of the names listed as tokens in the
    inbound Connection header, except for the deliberate re-sets: Te
    when the inbound request advertised Te: trailers, Connection and
    Upgrade when the inbound request asked for a protocol upgrade, and
    X-Forwarded-For, which the forwarder re-populates. -/
theorem outbound_scrubbed_except_resets (reqHeaders : Headers) (remote : Option String)
    (k : String)
    (hk : k ∈ hopHeaders ∨ k ∈ connTokens (uaDefault reqHeaders))
    (hTe : ¬(canonicalHeaderKey k = "Te" ∧
      headerValuesContainsToken (hValues reqHeaders "Te") "trailers" = true))
    (hUp : ¬((canonicalHeaderKey k = "Connection" ∨ canonicalHeaderKey k = "Upgrade") ∧
      upgradeType (uaDefault reqHeaders) ≠ ""))
    (hXff : canonicalHeaderKey k ≠ "X-Forwarded-For") :
    hRow (prepareOutbound reqHeaders remote) k = none := by
  unfold prepareOutbound
  set out0 := uaDefault reqHeaders with hout0
  have hscrub : hRow (hopHeaders.foldl (fun h k => hDel h k)
      (removeConnectionHeaders out0)) k = none := by
    rcases hk with hk | hk
    · exact hRow_foldl_hDel_mem hopHeaders _ k ⟨k, hk, rfl⟩
    · exact hRow_foldl_hDel_none hopHeaders _ k
        (removeConnectionHeaders_mem out0 k ⟨k, hk, rfl⟩)
  have hTe' : ∀ hcur : Headers, hRow hcur k = none →
      hRow (if headerValuesContainsToken (hValues reqHeaders "Te") "trailers" then
        hSet hcur "Te" "trailers" else hcur) k = none := by
    intro hcur h0
    by_cases hc : headerValuesContainsToken (hValues reqHeaders "Te") "trailers" = true
    · rw [if_pos hc]
      refine hRow_hSet_none hcur k "Te" "trailers" ?_ h0
      intro hck
      exact hTe ⟨hck.trans (by decide), hc⟩
    · rw [if_neg (by simpa using hc)]
      exact h0
  have hUp' : ∀ hcur : Headers, hRow hcur k = none →
      hRow (if upgradeType out0 ≠ "" then
        hSet (hSet hcur "Connection" "Upgrade") "Upgrade" (upgradeType out0)
      else hcur) k = none := by
    intro hcur h0
    by_cases hc : upgradeType out0 ≠ ""
    · rw [if_pos hc]
      refine hRow_hSet_none _ k "Upgrade" (upgradeType out0) ?_
        (hRow_hSet_none hcur k "Connection" "Upgrade" ?_ h0)
      · intro hck
        exact hUp ⟨Or.inr (hck.trans (by decide)), hc⟩
      · intro hck
        exact hUp ⟨Or.inl (hck.trans (by decide)), hc⟩
    · rw [if_neg hc]
      exact h0
  have hmid : hRow (if upgradeType out0 ≠ "" then
      hSet (hSet (if headerValuesContainsToken (hValues reqHeaders "Te") "trailers" then
          hSet (hopHeaders.foldl (fun h k => hDel h k) (removeConnectionHeaders out0))
            "Te" "trailers"
        else hopHeaders.foldl (fun h k => hDel h k) (removeConnectionHeaders out0))
        "Connection" "Upgrade") "Upgrade" (upgradeType out0)
    else (if headerValuesContainsToken (hValues reqHeaders "Te") "trailers" then
          hSet (hopHeaders.foldl (fun h k => hDel h k) (removeConnectionHeaders out0))
            "Te" "trailers"
        else hopHeaders.foldl (fun h k => hDel h k) (removeConnectionHeaders out0))) k
      = none := hUp' _ (hTe' _ hscrub)
  cases remote with
  | none => exact hmid
  | some clientIP =>
    simp only
    set hmid2 := (if upgradeType out0 ≠ "" then
      hSet (hSet (if headerValuesContainsToken (hValues reqHeaders "Te") "trailers" then
          hSet (hopHeaders.foldl (fun h k => hDel h k) (removeConnectionHeaders out0))
            "Te" "trailers"
        else hopHeaders.foldl (fun h k => hDel h k) (removeConnectionHeaders out0))
        "Connection" "Upgrade") "Upgrade" (upgradeType out0)
    else (if headerValuesContainsToken (hValues reqHeaders "Te") "trailers" then
          hSet (hopHeaders.foldl (fun h k => hDel h k) (removeConnectionHeaders out0))
            "Te" "trailers"
        else hopHeaders.foldl (fun h k => hDel h k) (removeConnectionHeaders out0)))
    by_cases hskip : hRow hmid2 "X-Forwarded-For" = some []
    · rw [if_neg (by simpa using hskip)]
      exact hmid
    · rw [if_pos (by simpa using hskip)]
      refine hRow_hSet_none _ k "X-Forwarded-For" _ ?_ hmid
      intro hck
      exact hXff (hck.trans (by decide))

/-- Witness for the amended C8: Keep-Alive is scrubbed from a request
    with an unrelated Connection header and a remote peer. -/
theorem outbound_scrubbed_witness :
    ("Keep-Alive" ∈ hopHeaders ∨
      "Keep-Alive" ∈ connTokens (uaDefault [("Connection", ["close"]), ("Keep-Alive", ["30"])])) ∧
    hRow (prepareOutbound [("Connection", ["close"]), ("Keep-Alive", ["30"])]
      (some "1.2.3.4")) "Keep-Alive" = none :=
  ⟨Or.inl (by decide),
    outbound_scrubbed_except_resets [("Connection", ["close"]), ("Keep-Alive", ["30"])]
      (some "1.2.3.4") "Keep-Alive" (Or.inl (by decide)) (by decide) (by decide) (by decide)⟩

/-! ## Claim C6: field-wise policy inheritance -/

theorem corsApplyEnabled_eq (c : Cors) (cfg : ConfigCors) :
    corsApplyEnabled c cfg = { c with enabled := cfg.enabled.getD c.enabled } := by
  rcases c with ⟨ce, cop, cac, cao, cah, cam, cex⟩
  unfold corsApplyEnabled
  cases cfg.enabled <;> rfl

theorem corsApplyOnlyPreflight_eq (c : Cors) (cfg : ConfigCors) :
    corsApplyOnlyPreflight c cfg =
      { c with onlyPreflight := cfg.onlyPreflight.getD c.onlyPreflight
               enabled := if cfg.onlyPreflight.getD c.onlyPreflight then false else c.enabled } := by
  rcases c with ⟨ce, cop, cac, cao, cah, cam, cex⟩
  unfold corsApplyOnlyPreflight
  cases cfg.onlyPreflight with
  | none => cases cop <;> rfl
  | some b => cases b <;> rfl

theorem corsApplyCredentials_eq (c : Cors) (cfg : ConfigCors) :
    corsApplyCredentials c cfg =
      { c with allowCredentials := cfg.allowCredentials.getD c.allowCredentials } := by
  rcases c with ⟨ce, cop, cac, cao, cah, cam, cex⟩
  unfold corsApplyCredentials
  cases cfg.allowCredentials <;> rfl

theorem corsApplyOrigins_eq (c : Cors) (cfg : ConfigCors) :
    corsApplyOrigins c cfg =
      { c with allowedOrigins :=
          (cfg.allowedOrigins.map (List.map trimSpace)).getD c.allowedOrigins } := by
  rcases c with ⟨ce, cop, cac, cao, cah, cam, cex⟩
  unfold corsApplyOrigins
  cases cfg.allowedOrigins <;> rfl

theorem corsApplyHeaders_eq (c : Cors) (cfg : ConfigCors) :
    corsApplyHeaders c cfg =
      { c with allowedHeaders :=
          (cfg.allowedHeaders.map
            (List.map (fun h => canonicalHeaderKey (trimSpace h)))).getD c.allowedHeaders } := by
  rcases c with ⟨ce, cop, cac, cao, cah, cam, cex⟩
  unfold corsApplyHeaders
  cases cfg.allowedHeaders <;> rfl

theorem corsApplyExposed_eq (c : Cors) (cfg : ConfigCors) :
    corsApplyExposed c cfg =
      { c with exposedHeaders :=
          (cfg.exposedHeaders.map
            (List.map (fun h => canonicalHeaderKey (trimSpace h)))).getD c.exposedHeaders } := by
  rcases c with ⟨ce, cop, cac, cao, cah, cam, cex⟩
  unfold corsApplyExposed
  cases cfg.exposedHeaders <;> rfl

theorem corsApplyMethods_preserves (c : Cors) (cfg : ConfigCors) (o : Cors)
    (h : corsApplyMethods c cfg = .ok o) :
    o.enabled = c.enabled ∧ o.onlyPreflight = c.onlyPreflight ∧
    o.allowCredentials = c.allowCredentials ∧ o.allowedOrigins = c.allowedOrigins ∧
    o.allowedHeaders = c.allowedHeaders ∧ o.exposedHeaders = c.exposedHeaders ∧
    (cfg.allowedMethods = none → o.allowedMethods = c.allowedMethods) := by
  have hcam : corsApplyMethods c cfg =
      (match cfg.allowedMethods with
        | none => Except.ok c
        | some ms =>
          if (ms.map (fun m => strToUpper (trimSpace m))).all isMethodRecognized then
            Except.ok { c with allowedMethods := ms.map (fun m => strToUpper (trimSpace m)) }
          else Except.error "method is not valid") := rfl
  rw [hcam] at h
  cases hm : cfg.allowedMethods with
  | none =>
    rw [hm] at h
    cases h
    exact ⟨rfl, rfl, rfl, rfl, rfl, rfl, fun _ => rfl⟩
  | some ms =>
    rw [hm] at h
    simp only at h
    by_cases hall : (ms.map (fun m => strToUpper (trimSpace m))).all isMethodRecognized = true
    · rw [if_pos hall] at h
      cases h
      exact ⟨rfl, rfl, rfl, rfl, rfl, rfl, fun hc => by cases hc⟩
    · rw [if_neg hall] at h
      cases h

theorem corsParse_fields (pc : Cors) (r : ConfigRoute) (cfg : ConfigCors) (o : Cors)
    (hcfg : r.corsCfg = some cfg) (h : corsParse pc r = .ok o) :
    (cfg.onlyPreflight = none → o.onlyPreflight = pc.onlyPreflight) ∧
    (cfg.allowCredentials = none → o.allowCredentials = pc.allowCredentials) ∧
    (cfg.allowedOrigins = none → o.allowedOrigins = pc.allowedOrigins) ∧
    (cfg.allowedHeaders = none → o.allowedHeaders = pc.allowedHeaders) ∧
    (cfg.allowedMethods = none → o.allowedMethods = pc.allowedMethods) ∧
    (cfg.exposedHeaders = none → o.exposedHeaders = pc.exposedHeaders) ∧
    (cfg.enabled = none →
      o.enabled = (if o.onlyPreflight then false else pc.enabled)) := by
  have hcp : corsParse pc r = corsApplyMethods
      (corsApplyExposed
        (corsApplyHeaders
          (corsApplyOrigins
            (corsApplyCredentials
              (corsApplyOnlyPreflight (corsApplyEnabled pc cfg) cfg) cfg) cfg) cfg) cfg) cfg := by
    unfold corsParse
    rw [hcfg]
  rw [hcp] at h
  rw [corsApplyEnabled_eq, corsApplyOnlyPreflight_eq, corsApplyCredentials_eq,
    corsApplyOrigins_eq, corsApplyHeaders_eq, corsApplyExposed_eq] at h
  obtain ⟨he, hop, hac, hao, hah, hex, hme⟩ := corsApplyMethods_preserves _ cfg o h
  dsimp only at he hop hac hao hah hex
  refine ⟨?_, ?_, ?_, ?_, ?_, ?_, ?_⟩
  · intro hc; rw [hop, hc]; rfl
  · intro hc; rw [hac, hc]; rfl
  · intro hc; rw [hao, hc]; rfl
  · intro hc; rw [hah, hc]; rfl
  · intro hc; exact hme hc
  · intro hc; rw [hex, hc]; rfl
  · intro hc
    rw [he, hop, hc]
    rfl

theorem corsParse_none (pc : Cors) (r : ConfigRoute) (hcfg : r.corsCfg = none) :
    corsParse pc r = .ok pc := by
  unfold corsParse
  rw [hcfg]

theorem rlParse_eq (l : RateLimit) (r : ConfigRoute) :
    rlParse l r = (match r.rateLimitCfg with
      | none => l
      | some cfg =>
        { enabled := cfg.enabled.getD l.enabled, limit := cfg.limit.getD l.limit
          duration := cfg.duration.getD l.duration }) := by
  unfold rlParse
  cases hc : r.rateLimitCfg with
  | none => rfl
  | some cfg =>
    rcases cfg with ⟨en, li, du⟩
    cases en <;> cases li <;> cases du <;> rfl

theorem parseAuthorization_fields (r : ConfigRoute) (cfg : ConfigAuthorization)
    (az : Authorization) (hcfg : r.authorization = some cfg)
    (h : parseAuthorization r = .ok az) :
    (cfg.via = none → az.via = .nullVia) ∧
    (cfg.from_ = none → az.from_ = .nullFrom) ∧
    (cfg.policy = none → az.policy = .nullPolicy) := by
  have hpa : parseAuthorization r =
      (match parseVia cfg.via, parseFrom cfg.from_, parsePolicy cfg.policy with
        | .ok av, .ok af, .ok ap => .ok ⟨av, af, ap⟩
        | .error e, _, _ => .error e
        | .ok _, .error e, _ => .error e
        | .ok _, .ok _, .error e => .error e) := by
    unfold parseAuthorization
    rw [hcfg]
  rw [hpa] at h
  cases hv : parseVia cfg.via with
  | error e => rw [hv] at h; cases h
  | ok av =>
    cases hf : parseFrom cfg.from_ with
    | error e => rw [hv, hf] at h; cases h
    | ok af =>
      cases hp : parsePolicy cfg.policy with
      | error e => rw [hv, hf, hp] at h; cases h
      | ok ap =>
        rw [hv, hf, hp] at h
        cases h
        refine ⟨?_, ?_, ?_⟩
        · intro hc
          rw [hc] at hv
          cases hv
          rfl
        · intro hc
          rw [hc] at hf
          cases hf
          rfl
        · intro hc
          rw [hc] at hp
          cases hp
          rfl

theorem parseAuthorization_none (r : ConfigRoute) (hcfg : r.authorization = none) :
    parseAuthorization r = .ok ⟨.nullVia, .nullFrom, .nullPolicy⟩ := by
  unfold parseAuthorization
  rw [hcfg]

theorem inheritFrom_cors (pr c : Route) : (inheritFrom pr c).cors = c.cors := by
  unfold inheritFrom
  dsimp only
  split <;> split <;> split <;> split <;> split <;> rfl

theorem inheritFrom_rateLimit (pr c : Route) :
    (inheritFrom pr c).rateLimit = c.rateLimit := by
  unfold inheritFrom
  dsimp only
  split <;> split <;> split <;> split <;> split <;> rfl

theorem inheritFrom_target (pr c : Route) :
    (inheritFrom pr c).target =
      (if c.target = none ∧ pr.target ≠ none then pr.target else c.target) := by
  unfold inheritFrom
  dsimp only
  split <;> split <;> split <;> split <;> split <;> simp_all

theorem inheritFrom_rewrite (pr c : Route) :
    (inheritFrom pr c).rewrite =
      (if c.rewrite = "" ∧ pr.rewrite ≠ "" then pr.rewrite else c.rewrite) := by
  unfold inheritFrom
  dsimp only
  split <;> split <;> split <;> split <;> split <;> simp_all

theorem inheritFrom_via (pr c : Route) :
    (inheritFrom pr c).authz.via =
      (if c.authz.via = AuthzVia.nullVia ∧ pr.authz.via ≠ AuthzVia.nullVia then pr.authz.via
       else c.authz.via) := by
  unfold inheritFrom
  dsimp only
  split <;> split <;> split <;> split <;> split <;> simp_all

theorem inheritFrom_from (pr c : Route) :
    (inheritFrom pr c).authz.from_ =
      (if c.authz.from_ = AuthzFrom.nullFrom ∧ pr.authz.from_ ≠ AuthzFrom.nullFrom then
        pr.authz.from_
       else c.authz.from_) := by
  unfold inheritFrom
  dsimp only
  split <;> split <;> split <;> split <;> split <;> simp_all

theorem inheritFrom_policy (pr c : Route) :
    (inheritFrom pr c).authz.policy =
      (if c.authz.policy = AuthzPolicy.nullPolicy ∧ pr.authz.policy ≠ AuthzPolicy.nullPolicy then
        pr.authz.policy
       else c.authz.policy) := by
  unfold inheritFrom
  dsimp only
  split <;> split <;> split <;> split <;> split <;> simp_all

theorem except_bind_ok {E A B : Type} (a : A) (f : A → Except E B) :
    (Bind.bind (Except.ok a) f) = f a := rfl

theorem except_bind_error {E A B : Type} (e : E) (f : A → Except E B) :
    (Bind.bind (Except.error e : Except E A) f) = .error e := rfl

theorem validated_ok (x y : Route) (h : validated x = .ok y) : y = x := by
  unfold validated at h
  split at h
  · exact Except.noConfusion h
  · injection h with h2
    exact h2.symm

theorem resolveRoute_ok (pr : Route) (r : ConfigRoute) (c : Route)
    (h : resolveRoute (some pr) r = .ok c) :
    ∃ az o, parseAuthorization r = .ok az ∧ corsParse pr.cors r = .ok o ∧
      c = inheritFrom pr
        { cors := o, target := r.target, rewrite := (r.rewrite).getD ""
          rateLimit := rlParse pr.rateLimit r, pfx := r.pfx, authz := az } := by
  unfold resolveRoute at h
  cases haz : parseAuthorization r with
  | error e =>
    simp only [haz, except_bind_error] at h
    cases h
  | ok az =>
    simp only [haz, except_bind_ok] at h
    cases hco : corsParse pr.cors r with
    | error e =>
      simp only [hco, except_bind_error] at h
      cases h
    | ok o =>
      simp only [hco, except_bind_ok] at h
      refine ⟨az, o, rfl, rfl, ?_⟩
      exact validated_ok _ _ h

/-- Counterexample to C6: the child route of the parsed fixture sets
    only cors.onlyPreflight; it does not set cors.enabled, yet its
    resolved cors.enabled is false while the parent's resolved
    cors.enabled is true. -/
theorem cors_enabled_inheritance_cex :
    cfg6Child.corsCfg = some ⟨none, some true, none, none, none, none, none⟩ ∧
    (lookupTbl tbl6 "/a").map (fun r => r.cors.enabled) = some true ∧
    (lookupTbl tbl6 "/a/b").map (fun r => r.cors.enabled) = some false :=
  ⟨rfl, by decide, by decide⟩

/-- Claim C6 as amended: for every resolved child route, each of target,
    rewrite, the rateLimit fields, the cors fields, and the
    authorization via / from / policy equals the parent's resolved value
    when the child's configuration leaves it unset — except
    cors.enabled, which, when a cors block is present, equals the
    parent's enabled only if the resolved onlyPreflight is off, because
    cors.parse forces enabled to false whenever onlyPreflight holds. -/
theorem inheritance_per_field (pr : Route) (r : ConfigRoute) (c : Route)
    (h : resolveRoute (some pr) r = .ok c) :
    (r.target = none → c.target = pr.target) ∧
    (r.rewrite = none → c.rewrite = pr.rewrite) ∧
    (r.rateLimitCfg = none → c.rateLimit = pr.rateLimit) ∧
    (∀ cfg, r.rateLimitCfg = some cfg →
      (cfg.enabled = none → c.rateLimit.enabled = pr.rateLimit.enabled) ∧
      (cfg.limit = none → c.rateLimit.limit = pr.rateLimit.limit) ∧
      (cfg.duration = none → c.rateLimit.duration = pr.rateLimit.duration)) ∧
    (r.corsCfg = none → c.cors = pr.cors) ∧
    (∀ cfg, r.corsCfg = some cfg →
      (cfg.onlyPreflight = none → c.cors.onlyPreflight = pr.cors.onlyPreflight) ∧
      (cfg.allowCredentials = none → c.cors.allowCredentials = pr.cors.allowCredentials) ∧
      (cfg.allowedOrigins = none → c.cors.allowedOrigins = pr.cors.allowedOrigins) ∧
      (cfg.allowedHeaders = none → c.cors.allowedHeaders = pr.cors.allowedHeaders) ∧
      (cfg.allowedMethods = none → c.cors.allowedMethods = pr.cors.allowedMethods) ∧
      (cfg.exposedHeaders = none → c.cors.exposedHeaders = pr.cors.exposedHeaders) ∧
      (cfg.enabled = none →
        c.cors.enabled = (if c.cors.onlyPreflight then false else pr.cors.enabled))) ∧
    (r.authorization = none → c.authz.via = pr.authz.via ∧
      c.authz.from_ = pr.authz.from_ ∧ c.authz.policy = pr.authz.policy) ∧
    (∀ cfg, r.authorization = some cfg →
      (cfg.via = none → c.authz.via = pr.authz.via) ∧
      (cfg.from_ = none → c.authz.from_ = pr.authz.from_) ∧
      (cfg.policy = none → c.authz.policy = pr.authz.policy)) := by
  obtain ⟨az, o, haz, hco, rfl⟩ := resolveRoute_ok pr r c h
  refine ⟨?_, ?_, ?_, ?_, ?_, ?_, ?_, ?_⟩
  · intro hc
    rw [inheritFrom_target]
    simp only [hc]
    cases hp : pr.target <;> simp [hp]
  · intro hc
    rw [inheritFrom_rewrite]
    simp only [hc, Option.getD_none]
    by_cases hp : pr.rewrite = "" <;> simp [hp]
  · intro hc
    rw [inheritFrom_rateLimit]
    simp only
    rw [rlParse_eq, hc]
  · intro cfg hc
    rw [inheritFrom_rateLimit]
    simp only
    rw [rlParse_eq, hc]
    refine ⟨?_, ?_, ?_⟩ <;> intro hf <;> simp [hf]
  · intro hc
    rw [inheritFrom_cors]
    simp only
    have := corsParse_none pr.cors r hc
    rw [this] at hco
    cases hco
    rfl
  · intro cfg hc
    rw [inheritFrom_cors]
    simp only
    exact corsParse_fields pr.cors r cfg o hc hco
  · intro hc
    have := parseAuthorization_none r hc
    rw [this] at haz
    cases haz
    refine ⟨?_, ?_, ?_⟩
    · rw [inheritFrom_via]
      cases hp : pr.authz.via <;> simp [hp]
    · rw [inheritFrom_from]
      cases hp : pr.authz.from_ <;> simp [hp]
    · rw [inheritFrom_policy]
      cases hp : pr.authz.policy <;> simp [hp]
  · intro cfg hc
    obtain ⟨hv, hf, hp⟩ := parseAuthorization_fields r cfg az hc haz
    refine ⟨?_, ?_, ?_⟩
    · intro hcv
      rw [inheritFrom_via]
      simp only [hv hcv]
      cases hpv : pr.authz.via <;> simp [hpv]
    · intro hcf
      rw [inheritFrom_from]
      simp only [hf hcf]
      cases hpf : pr.authz.from_ <;> simp [hpf]
    · intro hcp
      rw [inheritFrom_policy]
      simp only [hp hcp]
      cases hpp : pr.authz.policy <;> simp [hpp]

/-- Witness for the amended C6 at a concrete parent and child. -/
theorem inheritance_per_field_witness :
    resolveRoute (some rA) cfg6Child = .ok cW ∧
    cfg6Child.target = none ∧ cW.target = rA.target :=
  ⟨rfl, rfl,
    (inheritance_per_field rA cfg6Child cW rfl).1 rfl⟩

/-! ## Claim C1: what routes.match returns -/

theorem len_lt_pairwise_unique {l : List (List Char)}
    (hp : l.Pairwise (fun a b => a.length < b.length)) :
    ∀ a ∈ l, ∀ b ∈ l, a.length = b.length → a = b := by
  induction l with
  | nil => intro a ha; exact absurd ha (by simp)
  | cons x rest ih =>
    rw [List.pairwise_cons] at hp
    intro a ha b hb heq
    rcases List.mem_cons.mp ha with rfl | ha' <;> rcases List.mem_cons.mp hb with rfl | hb'
    · rfl
    · exact absurd heq (by have := hp.1 b hb'; omega)
    · exact absurd heq (by have := hp.1 a ha'; omega)
    · exact ih hp.2 a ha' b hb' heq

theorem walkFold_append (tbl : RouteTable) (ks : List (List Char)) (k : List Char) :
    walkFold tbl (ks ++ [k]) =
      (match lookupTbl tbl (String.mk k) with
        | some r => some (r, k.length)
        | none => walkFold tbl ks) := by
  unfold walkFold
  rw [List.foldl_append]
  rfl

theorem walkFold_none_iff (tbl : RouteTable) (ks : List (List Char)) :
    walkFold tbl ks = none ↔ ∀ k ∈ ks, lookupTbl tbl (String.mk k) = none := by
  induction ks using List.reverseRecOn with
  | nil => simp [walkFold]
  | append_singleton ks k ih =>
    rw [walkFold_append]
    cases hl : lookupTbl tbl (String.mk k) with
    | some r =>
      constructor
      · intro hc; exact Option.noConfusion hc
      · intro hall
        have := hall k (by simp)
        rw [hl] at this
        exact Option.noConfusion this
    | none =>
      constructor
      · intro hnone k' hk'
        rcases List.mem_append.mp hk' with hk' | hk'
        · exact ih.mp hnone k' hk'
        · rcases List.mem_singleton.mp hk' with rfl
          exact hl
      · intro hall
        exact ih.mpr fun k' hk' => hall k' (List.mem_append_left _ hk')

theorem walkFold_some (tbl : RouteTable) (ks : List (List Char)) :
    ks.Pairwise (fun a b => a.length < b.length) → ∀ (r : Route) (l : Nat),
      walkFold tbl ks = some (r, l) →
      ∃ k, k ∈ ks ∧ lookupTbl tbl (String.mk k) = some r ∧ k.length = l ∧
        ∀ k', k' ∈ ks → (lookupTbl tbl (String.mk k')).isSome = true →
          k'.length ≤ k.length := by
  induction ks using List.reverseRecOn with
  | nil =>
    intro _ r l h
    simp [walkFold] at h
  | append_singleton ks k ih =>
    intro hp r l h
    have hp' := (List.pairwise_append.mp hp).1
    have hlast : ∀ a ∈ ks, a.length < k.length := by
      intro a ha
      exact (List.pairwise_append.mp hp).2.2 a ha k (by simp)
    rw [walkFold_append] at h
    cases hl : lookupTbl tbl (String.mk k) with
    | some r0 =>
      rw [hl] at h
      injection h with h2
      injection h2 with hr hlen
      subst hr
      refine ⟨k, by simp, hl, hlen, ?_⟩
      intro k' hk' _
      rcases List.mem_append.mp hk' with hk' | hk'
      · exact le_of_lt (hlast k' hk')
      · rcases List.mem_singleton.mp hk' with rfl
        exact le_refl _
    | none =>
      rw [hl] at h
      obtain ⟨k0, hk0, hlk, hlen, hmax⟩ := ih hp' r l h
      refine ⟨k0, List.mem_append_left _ hk0, hlk, hlen, ?_⟩
      intro k' hk' hsome
      rcases List.mem_append.mp hk' with hk' | hk'
      · exact hmax k' hk' hsome
      · rcases List.mem_singleton.mp hk' with rfl
        rw [hl] at hsome
        exact absurd hsome (by simp)

theorem boundaries_pairwise (cs : List Char) :
    (boundaries cs).Pairwise (fun a b => a.length < b.length) := by
  unfold boundaries
  rw [List.pairwise_map]
  have hbase : ((List.range (cs.length + 1)).filter (boundaryIdx cs)).Pairwise (· < ·) :=
    (List.pairwise_lt_range _).filter _
  refine hbase.imp_of_mem ?_
  intro a b ha hb hab
  have ha' : a < cs.length + 1 := List.mem_range.mp (List.mem_of_mem_filter ha)
  have hb' : b < cs.length + 1 := List.mem_range.mp (List.mem_of_mem_filter hb)
  simp only [List.length_take]
  omega

/-- Counterexample to C1: in the parsed fixture, "/a" (with a target)
    and "/a/b" (without one) are sibling configuration entries, so
    "/a/b" inherits nothing; on path "/a/b/x" the walk records the
    deepest node "/a/b", whose target is nil, and match returns empty
    even though the trie ancestor "/a" has a resolved non-nil target. -/
theorem match_ignores_shallower_target_cex :
    parseRoutes [cfgA, cfgAB] = .ok tblC1 ∧
    routesMatch tblC1 "/a/b/x" = none ∧
    "/a".data ∈ boundaries "/a/b/x".data ∧
    lookupTbl tblC1 "/a" = some rA ∧ rA.target ≠ none :=
  ⟨rfl, by decide, by decide, by decide, by decide⟩

/-- Claim C1 as amended: match(p) is non-empty exactly when the deepest
    trie ancestor of p — the visited node of maximal key length among
    all visited nodes, with or without targets — has a resolved route
    with a non-nil target; in that case the returned route is that
    deepest node's. A shallower ancestor with a target does not produce
    a match when the deepest visited node has none. -/
theorem match_deepest_walked (tbl : RouteTable) (p : String) :
    (∀ m, routesMatch tbl p = some m →
      ∃ k, k ∈ boundaries p.data ∧ lookupTbl tbl (String.mk k) = some m.route ∧
        m.route.target ≠ none ∧
        ∀ k', k' ∈ boundaries p.data → (lookupTbl tbl (String.mk k')).isSome = true →
          k'.length ≤ k.length) ∧
    (∀ k r, k ∈ boundaries p.data → lookupTbl tbl (String.mk k) = some r →
      r.target ≠ none →
      (∀ k', k' ∈ boundaries p.data → (lookupTbl tbl (String.mk k')).isSome = true →
        k'.length ≤ k.length) →
      (routesMatch tbl p).isSome = true) := by
  constructor
  · intro m hm
    unfold routesMatch at hm
    cases hw : walkFold tbl (boundaries p.data) with
    | none => rw [hw] at hm; exact Option.noConfusion hm
    | some tl =>
      obtain ⟨t, l⟩ := tl
      rw [hw] at hm
      dsimp only at hm
      by_cases ht : t.target = none
      · rw [if_pos ht] at hm; exact Option.noConfusion hm
      · rw [if_neg ht] at hm
        injection hm with hm'
        obtain ⟨k, hk, hlk, _, hmax⟩ :=
          walkFold_some tbl (boundaries p.data) (boundaries_pairwise p.data) t l hw
        subst hm'
        exact ⟨k, hk, hlk, ht, hmax⟩
  · intro k r hk hlk htgt hmax
    unfold routesMatch
    cases hw : walkFold tbl (boundaries p.data) with
    | none =>
      have := (walkFold_none_iff tbl (boundaries p.data)).mp hw k hk
      rw [hlk] at this
      exact absurd this (by simp)
    | some tl =>
      obtain ⟨t, l⟩ := tl
      obtain ⟨k0, hk0, hlk0, _, hmax0⟩ :=
        walkFold_some tbl (boundaries p.data) (boundaries_pairwise p.data) t l hw
      have h1 : k.length ≤ k0.length := hmax0 k hk (by rw [hlk]; rfl)
      have h2 : k0.length ≤ k.length := hmax k0 hk0 (by rw [hlk0]; rfl)
      have hkeq : k = k0 :=
        len_lt_pairwise_unique (boundaries_pairwise p.data) k hk k0 hk0
          (le_antisymm h1 h2)
      rw [hkeq, hlk0] at hlk
      injection hlk with hr
      dsimp only
      rw [if_neg (by rw [hr]; exact htgt)]
      rfl

/-- Witness for the amended C1 at a concrete table and path. -/
theorem match_deepest_walked_witness :
    ∃ k, k ∈ boundaries "/a/x".data ∧ lookupTbl tblC1 (String.mk k) = some rA ∧
      rA.target ≠ none ∧
      ∀ k', k' ∈ boundaries "/a/x".data →
        (lookupTbl tblC1 (String.mk k')).isSome = true → k'.length ≤ k.length := by
  have h := (match_deepest_walked tblC1 "/a/x").1 ⟨"/a/x", rA⟩ (by decide)
  exact h

/-! ## Claim C2: the sliding-window Allow bound -/

theorem memCount_slide (s : List Int) (min t : Int) (h : min ≤ t) :
    memCount (slide s min) t = memCount s t := by
  unfold memCount slide
  rw [List.countP_filter]
  congr 1
  funext a
  by_cases hta : t < a
  · have h1 : ¬(0 ≤ a ∧ a ≤ min) := by omega
    simp [hta, h1]
  · simp [hta]

theorem memCount_append_single (l : List Int) (x t : Int) :
    memCount (l ++ [x]) t = memCount l t + (if t < x then 1 else 0) := by
  unfold memCount
  rw [List.countP_append, List.countP_singleton]
  by_cases hc : t < x <;> simp [hc]

theorem memCount_le_fastCount (s : List Int) (min t : Int) (h : min ≤ t) :
    memCount s t ≤ fastCount s min := by
  unfold memCount fastCount
  apply List.countP_mono_left
  intro a _ ha
  simp only [decide_eq_true_eq] at ha ⊢
  omega

theorem allowsWithin_cons (e : Int × RLState) (evs : List (Int × RLState)) (lo hi : Int) :
    allowsWithin (e :: evs) lo hi =
      (if e.2 = RLState.allow ∧ lo < e.1 ∧ e.1 ≤ hi then 1 else 0) + allowsWithin evs lo hi := by
  unfold allowsWithin
  rw [List.countP_cons, Nat.add_comm]
  congr 1
  by_cases hc : (e.2 = RLState.allow ∧ lo < e.1 ∧ e.1 ≤ hi) <;> simp [hc]

theorem swAux (L : Nat) (D t : Int) :
    ∀ (ts : List Int) (s : List Int) (k : Nat),
      List.Sorted (· ≤ ·) ts → k ≤ L →
      (k ≤ memCount s t ∨ ∀ x ∈ ts, t + D < x) →
      k + allowsWithin (runTrace L D s ts).2 t (t + D) ≤ L := by
  intro ts
  induction ts with
  | nil =>
    intro s k _ hkL _
    simpa [runTrace, allowsWithin] using hkL
  | cons now ts ih =>
    intro s k hsort hkL hinv
    rw [List.sorted_cons] at hsort
    obtain ⟨hnow_le, hsort'⟩ := hsort
    rcases hrun : sortedSetRun L D s now with ⟨s2, o⟩
    have hstep : (runTrace L D s (now :: ts)).2 =
        (now, o) :: (runTrace L D s2 ts).2 := by
      simp [runTrace, hrun]
    rw [hstep, allowsWithin_cons]
    by_cases hwin : t + D < now
    · rw [if_neg (by intro hc; omega)]
      rw [Nat.zero_add]
      refine ih s2 k hsort' hkL (Or.inr ?_)
      intro x hx
      exact lt_of_lt_of_le hwin (hnow_le x hx)
    · push_neg at hwin
      have hk_mem : k ≤ memCount s t := by
        rcases hinv with h | h
        · exact h
        · exact absurd (h now (by simp)) (by omega)
      have hmin_le : now - D ≤ t := by omega
      unfold sortedSetRun at hrun
      by_cases hfast : L ≤ fastCount s (now - D)
      · rw [if_pos hfast] at hrun
        injection hrun with hs2 ho
        rw [if_neg (by simp [← ho])]
        rw [Nat.zero_add]
        refine ih s2 k hsort' hkL (Or.inl ?_)
        rw [← hs2]
        exact hk_mem
      · push_neg at hfast
        rw [if_neg (by omega)] at hrun
        dsimp only at hrun
        by_cases hfin : L < (slide s (now - D) ++ [now]).length
        · rw [if_pos hfin] at hrun
          injection hrun with hs2 ho
          rw [if_neg (by simp [← ho])]
          rw [Nat.zero_add]
          refine ih s2 k hsort' hkL (Or.inl ?_)
          rw [← hs2, memCount_append_single, memCount_slide _ _ _ hmin_le]
          by_cases htn : t < now <;> simp [htn] <;> omega
        · rw [if_neg hfin] at hrun
          injection hrun with hs2 ho
          by_cases htnow : t < now
          · rw [if_pos ⟨by rw [← ho], htnow, hwin⟩]
            have hk1 : k + 1 ≤ L := by
              have h3 : memCount s t ≤ fastCount s (now - D) :=
                memCount_le_fastCount s _ t hmin_le
              omega
            have hrec := ih s2 (k + 1) hsort' hk1 (Or.inl ?_)
            · omega
            · rw [← hs2, memCount_append_single, memCount_slide _ _ _ hmin_le,
                if_pos htnow]
              omega
          · rw [if_neg (by intro hc; exact htnow hc.2.1)]
            rw [Nat.zero_add]
            refine ih s2 k hsort' hkL (Or.inl ?_)
            rw [← hs2, memCount_append_single, memCount_slide _ _ _ hmin_le]
            omega

/-- Counterexample to C2: with limit 2 and duration 5 ms, the
    sequential trace at times 100, 105, 105 yields three Allow outcomes
    whose timestamps all lie in the closed window from 100 to
    100 + 5 = 105 — more than the limit. The first member has expired
    out of both the fast-path range and the pipeline count by time 105,
    yet time 105 is still inside the closed window of time 100. -/
theorem sliding_window_closed_window_cex :
    (0 : Nat) < 2 ∧ (0 : Int) < 5 ∧ List.Sorted (· ≤ ·) [(100 : Int), 105, 105] ∧
    (105 : Int) = 100 + 5 ∧
    allowsClosed (runTrace 2 5 [] [100, 105, 105]).2 100 105 = 3 ∧ ¬(3 ≤ 2) :=
  ⟨by decide, by decide, by decide, by decide, by decide, by decide⟩

/-- Claim C2 as amended: for every key, limit L > 0 and duration D > 0,
    over any sequential (per-key sequentialized, monotone-clock)
    execution of the sliding-window strategy, the number of Allow
    outcomes with timestamps in any half-open window from t exclusive to
    t + D inclusive is at most L. The fully closed window of the
    original claim admits L + 1 Allows at the window edges. -/
theorem sliding_window_bound (L : Nat) (D : Int) (ts : List Int) (t : Int)
    (_hL : 0 < L) (_hD : 0 < D) (hsort : List.Sorted (· ≤ ·) ts) :
    allowsWithin (runTrace L D [] ts).2 t (t + D) ≤ L := by
  have h := swAux L D t ts [] 0 hsort (Nat.zero_le L) (Or.inl (Nat.zero_le _))
  simpa using h

/-- Witness for the amended C2 at a concrete trace. -/
theorem sliding_window_bound_witness :
    (0 : Nat) < 1 ∧ (0 : Int) < 1 ∧ List.Sorted (· ≤ ·) [(0 : Int)] ∧
    allowsWithin (runTrace 1 1 [] [0]).2 0 (0 + 1) ≤ 1 :=
  ⟨by decide, by decide, by decide,
    sliding_window_bound 1 1 [0] 0 (by decide) (by decide) (by decide)⟩

end Gateway








